import Mathlib

/-!
SerialProto: framing, verification and Fletcher checksum.

A shallow embedding of `SerialProto.cpp` / `SerialProto.h`.

Platform model: the Arduino AVR target the sources are written for, where
`int`, `unsigned int` and `size_t` are 16 bits wide.  A `uint16_t` operand is
therefore not widened by integer promotion, and `~x` on it is the 16-bit
complement `65535 - x`.  Bytes (`uint8_t`) are natural numbers below 256 and
16-bit values are natural numbers below 65536; every conversion to a narrower
type is written as an explicit `%`.

The receive buffer `buf` is a list of `SERIAL_PROTO_BUFFER_SIZE` bytes.  A store
or load outside the buffer is undefined behaviour in the source; the embedding
makes it explicit by returning `none`.
-/

namespace SerialProto

/-- Receive buffer capacity, `#define SERIAL_PROTO_BUFFER_SIZE 20`. -/
def SERIAL_PROTO_BUFFER_SIZE : Nat := 20

/-- Preamble byte used for synchronisation between packets. -/
def preamble_byte : Nat := 0xAA

/-- Length of the header in a packet. -/
def header_length : Nat := 0x06

/-- Length of the checksum trailer. -/
def checksum_length : Nat := 0x02

/-- Offset of the type field in the header. -/
def type_position : Nat := 0x00

/-- Offset of the length field in the header. -/
def length_position : Nat := 0x02

/-- Offset of the length complement field in the header. -/
def length_complement_position : Nat := 0x04

/-- The operator `~` on a 16-bit unsigned operand. -/
def not16 (x : Nat) : Nat := 65535 - x % 65536

/-- The expression `(hi << 8) | lo` converted to `uint16_t`. -/
def be16 (hi lo : Nat) : Nat := ((hi <<< 8) ||| lo) % 65536

/-- The member variables of `class SerialProto`. -/
structure State where
  packet_type : Nat
  packet_length : Nat
  buffer_position : Nat
  seen_preamble : Bool
  buf : List Nat
  deriving DecidableEq

/-- The constructor `SerialProto::SerialProto()`.  It initialises the four scalar
members and leaves `buf` as it finds it, so the initial buffer content `mem` is a
parameter. -/
def new (mem : List Nat) : State :=
  { packet_type := 0, packet_length := 0, buffer_position := 0,
    seen_preamble := false, buf := mem }

/-- The loop of `SerialProto::fletcher16`: one round per data byte, on `uint16_t`
sums.  The data is traversed as a list; the loop counter `int index` itself is not
part of the embedding. -/
def fletcherLoop : Nat → Nat → List Nat → Nat × Nat
  | sum1, sum2, [] => (sum1, sum2)
  | sum1, sum2, d :: ds =>
    let sum1 := ((sum1 + d) % 65536) % 255
    let sum2 := ((sum2 + sum1) % 65536) % 255
    fletcherLoop sum1 sum2 ds

/-- The function `SerialProto::fletcher16`: `checkA`, `checkB` are the values
found behind the two out-pointers on entry, the result is the pair stored
through them on return.  `data` holds the `len` bytes that are read. -/
def fletcher16 (checkA checkB : Nat) (data : List Nat) (reset : Bool) : Nat × Nat :=
  let init : Nat × Nat := if !reset then (checkA, checkB) else (0, 0)
  let sums := fletcherLoop init.1 init.2 data
  let sum1 := if sums.1 == 0 then 0xFF else sums.1
  let sum2 := if sums.2 == 0 then 0xFF else sums.2
  (sum1 % 256, sum2 % 256)

/-- The method `SerialProto::verifyPacket`.  It reads `buf[0 .. packet_length)`;
the result is `none` when that range is not inside the buffer (this includes
`packet_length < checksum_length`, where the unsigned subtraction wraps). -/
def verifyPacket (s : State) : Option Bool :=
  if checksum_length ≤ s.packet_length ∧ s.packet_length ≤ SERIAL_PROTO_BUFFER_SIZE then
    let c := fletcher16 0 0 (s.buf.take (s.packet_length - checksum_length)) true
    if c.1 == s.buf.getD (s.packet_length - 2) 0 && c.2 == s.buf.getD (s.packet_length - 1) 0 then
      some true
    else
      some false
  else
    none

/-- The method `SerialProto::readOneByteAndVerify`, with the value returned by
`input_stream.read()` as the argument `input`.  The result is `none` when the
store `buf[buffer_position] = data` falls outside the buffer. -/
def readOneByteAndVerify (s : State) (input : Nat) : Option (State × Bool) :=
  let data := input % 256
  if !s.seen_preamble then
    if data == preamble_byte then
      some ({ s with seen_preamble := true }, false)
    else
      some (s, false)
  else if s.buffer_position < SERIAL_PROTO_BUFFER_SIZE then
    let s := { s with buf := s.buf.set s.buffer_position data }
    let s := { s with buffer_position := (s.buffer_position + 1) % 65536 }
    if s.buffer_position == header_length then
      let data_length := be16 (s.buf.getD length_position 0) (s.buf.getD (length_position + 1) 0)
      let data_length_complement :=
        be16 (s.buf.getD length_complement_position 0) (s.buf.getD (length_complement_position + 1) 0)
      if data_length != not16 data_length_complement then
        some ({ s with seen_preamble := false, buffer_position := 0 }, false)
      else
        let s := { s with packet_length := (header_length + data_length + checksum_length) % 65536 }
        let s := { s with packet_type := be16 (s.buf.getD type_position 0) (s.buf.getD (type_position + 1) 0) }
        if s.packet_length > SERIAL_PROTO_BUFFER_SIZE then
          some ({ s with seen_preamble := false, buffer_position := 0 }, false)
        else
          some (s, false)
    else if s.buffer_position == s.packet_length then
      match verifyPacket s with
      | none => none
      | some ok =>
        if !ok then
          some ({ s with seen_preamble := false, buffer_position := 0 }, false)
        else
          some (s, true)
    else
      some (s, false)
  else
    none

/-- Successive calls of `readOneByteAndVerify`, one per byte of the list, with the
list of the values returned. -/
def feed (s : State) : List Nat → Option (State × List Bool)
  | [] => some (s, [])
  | b :: bs =>
    match readOneByteAndVerify s b with
    | none => none
    | some (s1, r) =>
      match feed s1 bs with
      | none => none
      | some (s2, rs) => some (s2, r :: rs)

/-- The static method `SerialProto::writePacket`.  `data` is the memory behind the
pointer, of which the first `data_length` bytes are read.  The result is the list
of bytes written to the output stream, in order, with the returned flag. -/
def writePacket (packet_type : Nat) (data : List Nat) (data_length : Nat) : List Nat × Bool :=
  let header : List Nat :=
    [ ((packet_type >>> 8) &&& 0xFF) % 256,
      (packet_type &&& 0xFF) % 256,
      ((data_length >>> 8) &&& 0xFF) % 256,
      (data_length &&& 0xFF) % 256,
      (not16 ((data_length >>> 8) &&& 0xFF)) % 256,
      (not16 (data_length &&& 0xFF)) % 256 ]
  let payload := data.take data_length
  let c := fletcher16 0 0 header true
  let c := fletcher16 c.1 c.2 payload false
  ([preamble_byte] ++ header ++ payload ++ [c.1] ++ [c.2], true)

/-- Every element of the list is a byte. -/
def isBytes (l : List Nat) : Prop := ∀ b ∈ l, b < 256

instance (l : List Nat) : Decidable (isBytes l) := by
  unfold isBytes; infer_instance

/-- The framer while it receives a packet: the preamble has been seen and the
bytes `recv` have been stored at the start of a buffer that held `mem` before. -/
def receiving (ptype plen : Nat) (recv mem : List Nat) : State :=
  { packet_type := ptype, packet_length := plen, buffer_position := recv.length,
    seen_preamble := true, buf := recv ++ mem.drop recv.length }

/-- The assignments `seen_preamble = false; buffer_position = 0;` of the three
failure branches. -/
def resync (s : State) : State :=
  { s with seen_preamble := false, buffer_position := 0 }

/-- The six header bytes of a packet of type `t` with `n` payload bytes, in
arithmetic form: type, length and complemented length, each big-endian. -/
def headerBytes (t n : Nat) : List Nat :=
  [t / 256, t % 256, n / 256, n % 256, 255 - n / 256, 255 - n % 256]

/-- The framer right after it has delivered the packet of type `t` and payload `p`:
header, payload and checksum at the start of the buffer, `buffer_position` and
`packet_length` both `8 + length p`. -/
def delivered (t : Nat) (p mem : List Nat) : State :=
  receiving t (8 + p.length)
    (headerBytes t p.length ++ p ++
      [(fletcher16 0 0 (headerBytes t p.length ++ p) true).1] ++
      [(fletcher16 0 0 (headerBytes t p.length ++ p) true).2]) mem

/-- The byte sequence `l` with bit `k` of its byte at index `i` flipped. -/
def flipBit (l : List Nat) (i k : Nat) : List Nat :=
  l.set i (l.getD i 0 ^^^ 2 ^ k)

/-- The six header bytes in the notation of the wire layout: shifts, masks and the
16-bit complement. -/
def layoutHeader (t n : Nat) : List Nat :=
  [t >>> 8, t &&& 0xFF, n >>> 8, n &&& 0xFF, not16 (n >>> 8) &&& 0xFF, not16 n &&& 0xFF]

/-- The weighted sum `Σ (n - i) * b_i` of a sequence `b_0 .. b_{n-1}`. -/
def weightedSum : List Nat → Nat
  | [] => 0
  | b :: bs => (bs.length + 1) * b + weightedSum bs

/-- The representative in `[1, 255]` of a number modulo 255, with 255 standing for
the residue 0. -/
def residueByte (r : Nat) : Nat := if r % 255 = 0 then 255 else r % 255

/-- The checksum in closed form, on exact integers: the sum of the bytes and the
weighted sum of the bytes, each as its representative in `[1, 255]`. -/
def fletcherClosed (data : List Nat) : Nat × Nat :=
  (residueByte data.sum, residueByte (weightedSum data))

/-- The method `SerialProto::readAllRemainingAndVerify`.  The stream is the list of
the bytes currently available: `available() > 0` says that the list is not empty,
and each `read()` takes its head.  The result is the framer, what is left on the
stream and the value returned; it is `none` when a store falls outside the
buffer. -/
def readAllRemainingAndVerify (s : State) : List Nat → Option (State × List Nat × Bool)
  | [] => some (s, [], false)
  | b :: bs =>
    match readOneByteAndVerify s b with
    | none => none
    | some (s1, r) =>
      if r then some (s1, bs, true) else readAllRemainingAndVerify s1 bs

/-- Two framers that the bytes to come cannot tell apart: same `seen_preamble` and
`buffer_position`, the same bytes stored so far, and a `packet_length` that is
either the same (header accepted) or out of reach of `buffer_position` while the
next header is read (0, or 7 and above). -/
def sameView (s1 s2 : State) : Prop :=
  s1.seen_preamble = s2.seen_preamble ∧ s1.buffer_position = s2.buffer_position ∧
  s1.buf.length = 20 ∧ s2.buf.length = 20 ∧
  s1.buf.take s1.buffer_position = s2.buf.take s1.buffer_position ∧
  (s1.seen_preamble = false → s1.buffer_position = 0) ∧
  (s1.seen_preamble = true ∧ 6 ≤ s1.buffer_position → s1.packet_length = s2.packet_length) ∧
  (¬ (s1.seen_preamble = true ∧ 6 ≤ s1.buffer_position) →
    (s1.packet_length = 0 ∨ 7 ≤ s1.packet_length) ∧
    (s2.packet_length = 0 ∨ 7 ≤ s2.packet_length))

/-- The invariant of the framer on bytes: the buffer holds 20 bytes; once the
header has been accepted (`seen_preamble` and `buffer_position ≥ 6`) its fields in
`buf[0 .. 5]` agree with `packet_type` and `packet_length`, the length check holds
and `packet_length ≤ 20`; otherwise `packet_length` is 0 or at least 7, and a
framer that searches for the preamble is at `buffer_position = 0`. -/
def headerHeld (s : State) : Prop :=
  s.buf.length = 20 ∧ isBytes s.buf ∧
  (s.seen_preamble = false → s.buffer_position = 0) ∧
  (s.seen_preamble = true ∧ 6 ≤ s.buffer_position →
    256 * s.buf.getD 2 0 + s.buf.getD 3 0 = 65535 - (256 * s.buf.getD 4 0 + s.buf.getD 5 0) ∧
    s.packet_length = (6 + (256 * s.buf.getD 2 0 + s.buf.getD 3 0) + 2) % 65536 ∧
    s.packet_length ≤ 20 ∧
    s.packet_type = 256 * s.buf.getD 0 0 + s.buf.getD 1 0) ∧
  (¬ (s.seen_preamble = true ∧ 6 ≤ s.buffer_position) →
    s.packet_length = 0 ∨ 7 ≤ s.packet_length)

/-- What a completed packet looks like in the framer: the position is at
`packet_length = 6 + L + 2 ≤ 20` for the length field `L` in `buf[2 .. 3]`, which is
the complement of `buf[4 .. 5]`; `packet_type` is the field in `buf[0 .. 1]`; the
last two bytes are the reset-mode checksum of the bytes before them. -/
def holdsVerifiedPacket (s : State) : Prop :=
  s.buffer_position = s.packet_length ∧
  s.packet_length = 6 + (256 * s.buf.getD 2 0 + s.buf.getD 3 0) + 2 ∧
  s.packet_length ≤ 20 ∧
  256 * s.buf.getD 2 0 + s.buf.getD 3 0 = 65535 - (256 * s.buf.getD 4 0 + s.buf.getD 5 0) ∧
  s.packet_type = 256 * s.buf.getD 0 0 + s.buf.getD 1 0 ∧
  fletcher16 0 0 (s.buf.take (s.packet_length - 2)) true
    = (s.buf.getD (s.packet_length - 2) 0, s.buf.getD (s.packet_length - 1) 0)

/-! ## Arithmetic of the header fields -/

theorem be16_eq (hi lo : Nat) (hhi : hi < 256) (hlo : lo < 256) :
    be16 hi lo = 256 * hi + lo := by
  unfold be16
  rw [Nat.shiftLeft_eq, Nat.mul_comm]
  have h := Nat.mul_add_lt_is_or (i := 8) (b := lo) (by simpa using hlo) hi
  simp only [Nat.reducePow] at h ⊢
  rw [← h]
  omega

theorem and_255 (x : Nat) : x &&& 0xFF = x % 256 := by
  have h := Nat.and_pow_two_sub_one_eq_mod x 8
  simpa using h

theorem shr_8 (x : Nat) : x >>> 8 = x / 256 := by
  rw [Nat.shiftRight_eq_div_pow]

/-! ## The checksum loop -/

theorem fletcherLoop_append (a b : Nat) (x y : List Nat) :
    fletcherLoop a b (x ++ y) = fletcherLoop (fletcherLoop a b x).1 (fletcherLoop a b x).2 y := by
  induction x generalizing a b with
  | nil => rfl
  | cons d ds ih => simp only [List.cons_append, fletcherLoop]; exact ih _ _

theorem fletcherLoop_lt (a b : Nat) (x : List Nat) (ha : a < 255) (hb : b < 255) :
    (fletcherLoop a b x).1 < 255 ∧ (fletcherLoop a b x).2 < 255 := by
  induction x generalizing a b with
  | nil => exact ⟨ha, hb⟩
  | cons d ds ih =>
    simp only [fletcherLoop]
    exact ih _ _ (Nat.mod_lt _ (by decide)) (Nat.mod_lt _ (by decide))

/-- A seed of 255 (a remapped zero) continues the loop as a seed of 0 does. -/
theorem fletcherLoop_seed (a b d : Nat) (ds : List Nat) (ha : a ≤ 255) (hb : b ≤ 255)
    (hd : d < 256) :
    fletcherLoop a b (d :: ds) = fletcherLoop (a % 255) (b % 255) (d :: ds) := by
  simp only [fletcherLoop]
  have h1 : (a + d) % 65536 % 255 = (a % 255 + d) % 65536 % 255 := by omega
  have h2 : ∀ c, c < 255 → (b + c) % 65536 % 255 = (b % 255 + c) % 65536 % 255 := by
    intro c hc; omega
  rw [h1, h2 _ (Nat.mod_lt _ (by decide))]

/-- The remapping of a sum on output: `0` becomes `0xFF`, then the cast to a byte. -/
theorem remap_mod (a : Nat) (ha : a < 255) :
    ((if (a == 0) = true then 0xFF else a) % 256) % 255 = a ∧
    (if (a == 0) = true then 0xFF else a) % 256 ≤ 255 ∧
    (if (a == 0) = true then 0xFF else a) % 256 ≠ 0 := by
  by_cases h : a = 0
  · subst h; decide
  · have : (a == 0) = false := by simpa using h
    simp only [this]
    refine ⟨?_, ?_, ?_⟩ <;> simp <;> omega

/-- Reset mode followed by continue mode is reset mode over the concatenation. -/
theorem fletcher16_continue (a0 b0 a1 b1 : Nat) (x y : List Nat) (hy : isBytes y) :
    fletcher16 (fletcher16 a0 b0 x true).1 (fletcher16 a0 b0 x true).2 y false
      = fletcher16 a1 b1 (x ++ y) true := by
  have hlt := fletcherLoop_lt 0 0 x (by decide) (by decide)
  have r1 := remap_mod _ hlt.1
  have r2 := remap_mod _ hlt.2
  cases y with
  | nil =>
    simp only [fletcher16, fletcherLoop, List.append_nil, Bool.not_true, Bool.not_false,
      Bool.false_eq_true, if_false, if_true] at r1 r2 ⊢
    have e1 : ∀ c : Nat, c ≠ 0 → c ≤ 255 → (if (c == 0) = true then 255 else c) % 256 = c := by
      intro c h0 h255
      have : (c == 0) = false := by simpa using h0
      simp only [this]; simp; omega
    rw [e1 _ r1.2.2 r1.2.1, e1 _ r2.2.2 r2.2.1]
  | cons d ds =>
    have hd : d < 256 := hy d (List.mem_cons_self _ _)
    simp only [fletcher16, Bool.not_true, Bool.not_false, Bool.false_eq_true, if_false,
      if_true] at r1 r2 ⊢
    rw [fletcherLoop_seed _ _ d ds r1.2.1 r2.2.1 hd, r1.1, r2.1, fletcherLoop_append]

/-! ## Single steps of the framer -/

theorem feed_bind (s : State) (xs ys : List Nat) :
    feed s (xs ++ ys) =
      (feed s xs).bind fun p => (feed p.1 ys).map fun q => (q.1, p.2 ++ q.2) := by
  induction xs generalizing s with
  | nil =>
    simp only [List.nil_append, feed, Option.some_bind, List.nil_append]
    cases feed s ys <;> simp
  | cons b bs ih =>
    simp only [List.cons_append, feed]
    cases hb : readOneByteAndVerify s b with
    | none => simp
    | some p =>
      obtain ⟨s1, r⟩ := p
      simp only []
      rw [show bs.append ys = bs ++ ys from rfl, ih s1]
      cases h1 : feed s1 bs with
      | none => simp
      | some p1 =>
        obtain ⟨s2, rs⟩ := p1
        simp only [Option.some_bind]
        cases feed s2 ys <;> simp

theorem feed_append_some {s s1 s2 : State} {xs ys : List Nat} {r1 r2 : List Bool}
    (h1 : feed s xs = some (s1, r1)) (h2 : feed s1 ys = some (s2, r2)) :
    feed s (xs ++ ys) = some (s2, r1 ++ r2) := by
  rw [feed_bind, h1]; simp [h2]

theorem feed_cons_some {s s1 s2 : State} {b : Nat} {ys : List Nat} {r : Bool} {rs : List Bool}
    (h1 : readOneByteAndVerify s b = some (s1, r)) (h2 : feed s1 ys = some (s2, rs)) :
    feed s (b :: ys) = some (s2, r :: rs) := by
  simp [feed, h1, h2]

theorem read_search (s : State) (b : Nat) (hs : s.seen_preamble = false) :
    readOneByteAndVerify s b =
      some (if b % 256 = preamble_byte then { s with seen_preamble := true } else s, false) := by
  unfold readOneByteAndVerify
  by_cases h : b % 256 = preamble_byte <;> simp [hs, h]

theorem receiving_snoc_buf (recv mem : List Nat) (b : Nat) (h : recv.length < mem.length) :
    (recv ++ mem.drop recv.length).set recv.length b
      = (recv ++ [b]) ++ mem.drop (recv ++ [b]).length := by
  rw [List.set_append_right _ _ (Nat.le_refl _), Nat.sub_self]
  have : mem.drop recv.length = mem[recv.length] :: mem.drop (recv.length + 1) := by
    simp
  rw [this, List.set_cons_zero]
  simp

theorem read_store (ptype plen : Nat) (recv mem : List Nat) (b : Nat)
    (hm : mem.length = 20) (hr : recv.length < 20) (hb : b < 256)
    (h6 : recv.length + 1 ≠ 6) (hl : recv.length + 1 ≠ plen) :
    readOneByteAndVerify (receiving ptype plen recv mem) b
      = some (receiving ptype plen (recv ++ [b]) mem, false) := by
  have hset := receiving_snoc_buf recv mem b (by omega)
  unfold readOneByteAndVerify
  simp only [receiving, Bool.not_true, Bool.false_eq_true, if_false, SERIAL_PROTO_BUFFER_SIZE,
    hr, if_true, header_length, Nat.mod_eq_of_lt hb, hset]
  have e : (recv.length + 1) % 65536 = recv.length + 1 := by omega
  have h6' : ¬ recv.length = 5 := by omega
  simp [e, h6', hl]

theorem feed_store (ptype plen : Nat) (mem ys : List Nat) (hm : mem.length = 20)
    (hy : isBytes ys) :
    ∀ recv : List Nat, recv.length + ys.length ≤ 20 →
      (6 ≤ recv.length ∨ recv.length + ys.length < 6) →
      (plen ≤ recv.length ∨ recv.length + ys.length < plen) →
      feed (receiving ptype plen recv mem) ys
        = some (receiving ptype plen (recv ++ ys) mem, List.replicate ys.length false) := by
  induction ys with
  | nil => intro recv _ _ _; simp [feed]
  | cons b bs ih =>
    intro recv hfit h6 hl
    simp only [List.length_cons] at hfit h6 hl
    have hb : b < 256 := hy b (List.mem_cons_self _ _)
    have hbs : isBytes bs := fun x hx => hy x (List.mem_cons_of_mem _ hx)
    have step := read_store ptype plen recv mem b hm (by omega) hb (by omega) (by omega)
    have rest := ih hbs (recv ++ [b]) (by simp; omega) (by simp; omega) (by simp; omega)
    rw [feed_cons_some step rest]
    simp [List.replicate_succ]

theorem feed_search (s : State) (noise : List Nat) (hs : s.seen_preamble = false)
    (hn : ∀ b ∈ noise, b % 256 ≠ preamble_byte) :
    feed s noise = some (s, List.replicate noise.length false) := by
  induction noise with
  | nil => simp [feed]
  | cons b bs ih =>
    have hb := hn b (List.mem_cons_self _ _)
    have step : readOneByteAndVerify s b = some (s, false) := by
      rw [read_search s b hs]; simp [hb]
    rw [feed_cons_some step (ih fun x hx => hn x (List.mem_cons_of_mem _ hx))]
    simp [List.replicate_succ]

theorem read_header (ptype plen h0 h1 h2 h3 h4 h5 : Nat) (mem : List Nat)
    (hm : mem.length = 20) (b5 : h5 < 256) :
    readOneByteAndVerify (receiving ptype plen [h0, h1, h2, h3, h4] mem) h5 =
      if be16 h2 h3 ≠ not16 (be16 h4 h5) then
        some (resync (receiving ptype plen [h0, h1, h2, h3, h4, h5] mem), false)
      else if (6 + be16 h2 h3 + 2) % 65536 > 20 then
        some (resync (receiving (be16 h0 h1) ((6 + be16 h2 h3 + 2) % 65536)
          [h0, h1, h2, h3, h4, h5] mem), false)
      else
        some (receiving (be16 h0 h1) ((6 + be16 h2 h3 + 2) % 65536)
          [h0, h1, h2, h3, h4, h5] mem, false) := by
  have hset := receiving_snoc_buf [h0, h1, h2, h3, h4] mem h5 (by simp [hm])
  simp only [List.length_cons, List.length_nil, List.cons_append, List.nil_append] at hset
  unfold readOneByteAndVerify
  simp only [receiving, resync, Bool.not_true, Bool.false_eq_true, if_false,
    SERIAL_PROTO_BUFFER_SIZE, List.length_cons, List.length_nil, Nat.mod_eq_of_lt b5,
    List.cons_append, List.nil_append, hset, header_length, length_position,
    length_complement_position, type_position, checksum_length]
  by_cases hc : be16 h2 h3 = not16 (be16 h4 h5)
  · by_cases hbig : (6 + be16 h2 h3 + 2) % 65536 > 20
    · simp [hc, hbig]
    · simp [hc, hbig]
  · simp [hc]

theorem verifyPacket_receiving (ptype plen : Nat) (body mem : List Nat) (c1 c2 : Nat)
    (hl : body.length + 2 = plen) (hfit : plen ≤ 20) :
    verifyPacket (receiving ptype plen (body ++ [c1] ++ [c2]) mem)
      = some (decide (fletcher16 0 0 body true = (c1, c2))) := by
  have e2 : plen - 2 = body.length := by omega
  have e1 : plen - 1 = body.length + 1 := by omega
  have hbuf : body ++ [c1] ++ [c2] ++ List.drop (body ++ [c1] ++ [c2]).length mem
      = body ++ (c1 :: c2 :: List.drop (body ++ [c1] ++ [c2]).length mem) := by simp
  unfold verifyPacket
  simp only [receiving, checksum_length, SERIAL_PROTO_BUFFER_SIZE, hbuf, e2, e1]
  rw [if_pos ⟨by omega, hfit⟩]
  simp only [List.take_left, List.getD_eq_getElem?_getD]
  rw [List.getElem?_append_right (Nat.le_refl _), List.getElem?_append_right (by omega)]
  simp only [Nat.sub_self, Nat.add_sub_cancel_left, List.getElem?_cons_zero,
    List.getElem?_cons_succ, Option.getD_some]
  by_cases h : fletcher16 0 0 body true = (c1, c2)
  · simp [h]
  · simp only [h, decide_False]
    have : ¬ ((fletcher16 0 0 body true).1 = c1 ∧ (fletcher16 0 0 body true).2 = c2) := by
      intro hh; exact h (Prod.ext hh.1 hh.2)
    simp [this]

theorem read_final (ptype plen : Nat) (body mem : List Nat) (c1 c2 : Nat)
    (hm : mem.length = 20) (hl : body.length + 2 = plen) (hfit : plen ≤ 20) (h6 : plen ≠ 6)
    (b2 : c2 < 256) :
    readOneByteAndVerify (receiving ptype plen (body ++ [c1]) mem) c2 =
      if fletcher16 0 0 body true = (c1, c2) then
        some (receiving ptype plen (body ++ [c1] ++ [c2]) mem, true)
      else
        some (resync (receiving ptype plen (body ++ [c1] ++ [c2]) mem), false) := by
  have hset := receiving_snoc_buf (body ++ [c1]) mem c2 (by simp; omega)
  have hv := verifyPacket_receiving ptype plen body mem c1 c2 hl hfit
  have hlen : (body ++ [c1]).length = plen - 1 := by simp; omega
  have e : (plen - 1 + 1) % 65536 = plen := by omega
  have hlt : plen - 1 < 20 := by omega
  unfold readOneByteAndVerify
  simp only [receiving, resync] at hv ⊢
  simp only [Bool.not_true, Bool.false_eq_true, if_false, SERIAL_PROTO_BUFFER_SIZE,
    Nat.mod_eq_of_lt b2, hset, header_length]
  simp only [hlen, e, hlt, if_true]
  have h6' : (plen == 6) = false := by simpa using h6
  simp only [h6', Bool.false_eq_true, if_false, beq_self_eq_true, if_true]
  have hlen2 : (body ++ [c1] ++ [c2]).length = plen := by simp; omega
  rw [hlen2] at hv ⊢
  rw [hv]
  by_cases h : fletcher16 0 0 body true = (c1, c2)
  · simp [h, hlen2]
  · simp [h]

/-! ## A whole frame -/

theorem search_preamble (s : State) (hs : s.seen_preamble = false) (hp : s.buffer_position = 0) :
    readOneByteAndVerify s 0xAA
      = some (receiving s.packet_type s.packet_length [] s.buf, false) := by
  rw [read_search s _ hs]
  obtain ⟨pt, pl, pos, seen, buf⟩ := s
  simp only at hs hp
  subst hs hp
  simp [receiving, preamble_byte]

/-- A frame with a consistent header that fits the buffer, fed to a framer that
searches for the preamble: the last byte decides, by the checksum alone. -/
theorem feed_frame (s : State) (h0 h1 h2 h3 h4 h5 c1 c2 : Nat) (body : List Nat)
    (hs : s.seen_preamble = false) (hp : s.buffer_position = 0) (hm : s.buf.length = 20)
    (hstale : s.packet_length = 0 ∨ 6 ≤ s.packet_length)
    (bh : isBytes [h0, h1, h2, h3, h4, h5]) (bb : isBytes body) (b1 : c1 < 256) (b2 : c2 < 256)
    (hL : 256 * h2 + h3 = body.length) (hC : 256 * h4 + h5 = 65535 - body.length)
    (hfit : body.length ≤ 12) :
    feed s ([0xAA, h0, h1, h2, h3, h4, h5] ++ body ++ [c1, c2]) =
      some
        (if fletcher16 0 0 ([h0, h1, h2, h3, h4, h5] ++ body) true = (c1, c2) then
          receiving (256 * h0 + h1) (8 + body.length)
            ([h0, h1, h2, h3, h4, h5] ++ body ++ [c1] ++ [c2]) s.buf
        else
          resync (receiving (256 * h0 + h1) (8 + body.length)
            ([h0, h1, h2, h3, h4, h5] ++ body ++ [c1] ++ [c2]) s.buf),
         List.replicate (8 + body.length) false ++
          [decide (fletcher16 0 0 ([h0, h1, h2, h3, h4, h5] ++ body) true = (c1, c2))]) := by
  have x0 : h0 < 256 := bh h0 (by simp)
  have x1 : h1 < 256 := bh h1 (by simp)
  have x2 : h2 < 256 := bh h2 (by simp)
  have x3 : h3 < 256 := bh h3 (by simp)
  have x4 : h4 < 256 := bh h4 (by simp)
  have x5 : h5 < 256 := bh h5 (by simp)
  -- preamble
  have s1 := search_preamble s hs hp
  -- first five header bytes
  have s2 := feed_store s.packet_type s.packet_length s.buf [h0, h1, h2, h3, h4] hm
    (fun b hb => bh b (by simp at hb ⊢; tauto)) [] (by simp) (by simp) (by simp; omega)
  -- sixth header byte
  have s3 := read_header s.packet_type s.packet_length h0 h1 h2 h3 h4 h5 s.buf hm x5
  rw [be16_eq h0 h1 x0 x1, be16_eq h2 h3 x2 x3, be16_eq h4 h5 x4 x5, hL, hC] at s3
  have e1 : ¬ body.length ≠ not16 (65535 - body.length) := by
    unfold not16; omega
  have e2 : (6 + body.length + 2) % 65536 = 8 + body.length := by omega
  rw [if_neg e1, e2, if_neg (by omega)] at s3
  -- payload and first checksum byte
  have s4 := feed_store (256 * h0 + h1) (8 + body.length) s.buf (body ++ [c1]) hm
    (fun b hb => by
      rcases List.mem_append.mp hb with h | h
      · exact bb b h
      · simp at h; omega)
    [h0, h1, h2, h3, h4, h5]
    (by simp only [List.length_append, List.length_cons, List.length_nil]; omega)
    (by simp only [List.length_append, List.length_cons, List.length_nil]; omega)
    (by simp only [List.length_append, List.length_cons, List.length_nil]; omega)
  have assoc : [h0, h1, h2, h3, h4, h5] ++ (body ++ [c1])
      = [h0, h1, h2, h3, h4, h5] ++ body ++ [c1] := (List.append_assoc _ _ _).symm
  rw [assoc] at s4
  -- second checksum byte
  have s5 := read_final (256 * h0 + h1) (8 + body.length) ([h0, h1, h2, h3, h4, h5] ++ body)
    s.buf c1 c2 hm
    (by simp only [List.length_append, List.length_cons, List.length_nil]; omega)
    (by omega) (by omega) b2
  have t4 : feed (receiving (256 * h0 + h1) (8 + body.length) [h0, h1, h2, h3, h4, h5] s.buf)
      (body ++ [c1] ++ [c2]) =
      some
        (if fletcher16 0 0 ([h0, h1, h2, h3, h4, h5] ++ body) true = (c1, c2) then
          receiving (256 * h0 + h1) (8 + body.length)
            ([h0, h1, h2, h3, h4, h5] ++ body ++ [c1] ++ [c2]) s.buf
        else
          resync (receiving (256 * h0 + h1) (8 + body.length)
            ([h0, h1, h2, h3, h4, h5] ++ body ++ [c1] ++ [c2]) s.buf),
         List.replicate (body ++ [c1]).length false ++
          [decide (fletcher16 0 0 ([h0, h1, h2, h3, h4, h5] ++ body) true = (c1, c2))]) := by
    refine feed_append_some s4 ?_
    by_cases h : fletcher16 0 0 ([h0, h1, h2, h3, h4, h5] ++ body) true = (c1, c2)
    · rw [if_pos h] at s5 ⊢
      rw [decide_eq_true h]
      exact feed_cons_some s5 rfl
    · rw [if_neg h] at s5 ⊢
      rw [decide_eq_false h]
      exact feed_cons_some s5 rfl
  have t3 := feed_cons_some s3 t4
  have t2 := feed_append_some s2 t3
  have t1 := feed_cons_some s1 t2
  have shape : [0xAA, h0, h1, h2, h3, h4, h5] ++ body ++ [c1, c2]
      = 0xAA :: ([h0, h1, h2, h3, h4] ++ h5 :: (body ++ [c1] ++ [c2])) := by simp
  rw [shape, t1]
  simp [List.replicate_succ, List.replicate_add, Nat.add_comm]

/-! ## The writer -/

theorem fletcher16_lt (a b : Nat) (x : List Nat) (r : Bool) :
    (fletcher16 a b x r).1 < 256 ∧ (fletcher16 a b x r).2 < 256 := by
  unfold fletcher16
  exact ⟨Nat.mod_lt _ (by decide), Nat.mod_lt _ (by decide)⟩

theorem headerBytes_isBytes (t n : Nat) (ht : t < 65536) (hn : n < 65536) :
    isBytes (headerBytes t n) := by
  intro b hb
  simp only [headerBytes, List.mem_cons, List.mem_singleton, List.not_mem_nil, or_false] at hb
  omega

theorem writePacket_eq (t : Nat) (p : List Nat) (ht : t < 65536) (hn : p.length < 65536)
    (hp : isBytes p) :
    writePacket t p p.length =
      ([0xAA] ++ headerBytes t p.length ++ p ++
        [(fletcher16 0 0 (headerBytes t p.length ++ p) true).1] ++
        [(fletcher16 0 0 (headerBytes t p.length ++ p) true).2], true) := by
  have e0 : (t / 256 % 256) % 256 = t / 256 := by omega
  have e1 : (t % 256) % 256 = t % 256 := by omega
  have e2 : (p.length / 256 % 256) % 256 = p.length / 256 := by omega
  have e3 : (p.length % 256) % 256 = p.length % 256 := by omega
  have e4 : (65535 - (p.length / 256 % 256) % 65536) % 256 = 255 - p.length / 256 := by omega
  have e5 : (65535 - (p.length % 256) % 65536) % 256 = 255 - p.length % 256 := by omega
  unfold writePacket
  simp only [and_255, shr_8, not16, List.take_length, e0, e1, e2, e3, e4, e5, preamble_byte]
  rw [fletcher16_continue 0 0 0 0 _ p hp]
  rfl

/-- A packet from the writer, fed to a framer that searches for the preamble. -/
theorem feed_packet (s : State) (t : Nat) (p : List Nat)
    (hs : s.seen_preamble = false) (hpos : s.buffer_position = 0) (hm : s.buf.length = 20)
    (hstale : s.packet_length = 0 ∨ 6 ≤ s.packet_length)
    (ht : t < 65536) (hp : isBytes p) (hn : p.length ≤ 12) :
    feed s (writePacket t p p.length).1 =
      some (delivered t p s.buf, List.replicate (8 + p.length) false ++ [true]) := by
  unfold delivered
  rw [writePacket_eq t p ht (by omega) hp]
  have hb := headerBytes_isBytes t p.length ht (by omega)
  have hc := fletcher16_lt 0 0 (headerBytes t p.length ++ p) true
  have hf := feed_frame s (t / 256) (t % 256) (p.length / 256) (p.length % 256)
    (255 - p.length / 256) (255 - p.length % 256) _ _ p hs hpos hm hstale hb hp hc.1 hc.2
    (by omega) (by omega) hn
  have et : 256 * (t / 256) + t % 256 = t := by omega
  rw [et] at hf
  simp only [headerBytes] at hf ⊢
  simp only [List.cons_append, List.nil_append, List.append_assoc, Prod.mk.eta, if_true,
    decide_True] at hf ⊢
  exact hf

theorem delivered_payload (t : Nat) (p mem : List Nat) :
    ((delivered t p mem).buf.drop 6).take p.length = p := by
  simp [delivered, receiving, headerBytes]

theorem layoutHeader_eq (t n : Nat) (hn : n < 65536) :
    layoutHeader t n = headerBytes t n := by
  have e4 : (65535 - n / 256 % 65536) % 256 = 255 - n / 256 := by omega
  have e5 : (65535 - n % 65536) % 256 = 255 - n % 256 := by omega
  simp only [layoutHeader, headerBytes, and_255, shr_8, not16, e4, e5]

/-! ## Arbitrary states -/

theorem take5_getD (l : List Nat) (h : 5 ≤ l.length) :
    l.take 5 = [l.getD 0 0, l.getD 1 0, l.getD 2 0, l.getD 3 0, l.getD 4 0] := by
  match l, h with
  | a :: b :: c :: d :: e :: rest, _ => simp

/-- A state with the preamble seen and five bytes buffered, in `receiving` form. -/
theorem receiving_five (s : State) (hs : s.seen_preamble = true) (hp : s.buffer_position = 5)
    (hm : s.buf.length = 20) :
    s = receiving s.packet_type s.packet_length
      [s.buf.getD 0 0, s.buf.getD 1 0, s.buf.getD 2 0, s.buf.getD 3 0, s.buf.getD 4 0] s.buf := by
  obtain ⟨pt, pl, pos, seen, buf⟩ := s
  simp only at hs hp hm
  subst hs hp
  have h5 := take5_getD buf (by omega)
  have hsplit : buf = buf.take 5 ++ buf.drop 5 := (List.take_append_drop 5 buf).symm
  rw [h5] at hsplit
  simp only [receiving, List.length_cons, List.length_nil, State.mk.injEq, true_and]
  exact hsplit

theorem receiving_buf_length (ptype plen : Nat) (recv mem : List Nat) (hm : mem.length = 20)
    (hr : recv.length ≤ 20) : (receiving ptype plen recv mem).buf.length = 20 := by
  simp only [receiving, List.length_append, List.length_drop]
  omega

/-! ## Corrupted headers -/

theorem flip_ne (x k : Nat) : x ^^^ 2 ^ k ≠ x := by
  intro h
  have h0 : x ^^^ 2 ^ k = x ^^^ 0 := by rw [h, Nat.xor_zero]
  have := (@Nat.xor_right_inj x (2 ^ k) 0).mp h0
  exact absurd this (Nat.pos_iff_ne_zero.mp (Nat.pow_pos (by decide)))

theorem flip_lt (x k : Nat) (hx : x < 256) (hk : k < 8) : x ^^^ 2 ^ k < 256 := by
  have h2 : 2 ^ k < 2 ^ 8 := Nat.pow_lt_pow_right (by decide) hk
  exact @Nat.xor_lt_two_pow x (2 ^ k) 8 hx h2

/-- A frame whose length field and complement field disagree resets the framer
at the sixth header byte. -/
theorem feed_bad_header (s : State) (h0 h1 h2 h3 h4 h5 : Nat)
    (hs : s.seen_preamble = false) (hp : s.buffer_position = 0) (hm : s.buf.length = 20)
    (hstale : s.packet_length = 0 ∨ 6 ≤ s.packet_length)
    (bh : isBytes [h0, h1, h2, h3, h4, h5])
    (hne : 256 * h2 + h3 ≠ 65535 - (256 * h4 + h5)) :
    feed s [0xAA, h0, h1, h2, h3, h4, h5] =
      some (resync (receiving s.packet_type s.packet_length [h0, h1, h2, h3, h4, h5] s.buf),
        List.replicate 7 false) := by
  have x2 : h2 < 256 := bh h2 (by simp)
  have x3 : h3 < 256 := bh h3 (by simp)
  have x4 : h4 < 256 := bh h4 (by simp)
  have x5 : h5 < 256 := bh h5 (by simp)
  have s1 := search_preamble s hs hp
  have s2 := feed_store s.packet_type s.packet_length s.buf [h0, h1, h2, h3, h4] hm
    (fun b hb => bh b (by simp at hb ⊢; tauto)) [] (by simp) (by simp) (by simp; omega)
  have s3 := read_header s.packet_type s.packet_length h0 h1 h2 h3 h4 h5 s.buf hm x5
  rw [be16_eq h2 h3 x2 x3, be16_eq h4 h5 x4 x5] at s3
  have hnot : not16 (256 * h4 + h5) = 65535 - (256 * h4 + h5) := by unfold not16; omega
  rw [hnot, if_pos hne] at s3
  have t3 := feed_cons_some s3 (rfl : feed _ [] = some (_, []))
  have t2 := feed_append_some s2 t3
  exact feed_cons_some s1 t2

theorem writePacket_cons (t : Nat) (p : List Nat) (ht : t < 65536) (hn : p.length < 65536)
    (hp : isBytes p) :
    (writePacket t p p.length).1 =
      0xAA :: (t / 256) :: (t % 256) :: (p.length / 256) :: (p.length % 256) ::
        (255 - p.length / 256) :: (255 - p.length % 256) ::
        (p ++ [(fletcher16 0 0 (headerBytes t p.length ++ p) true).1,
               (fletcher16 0 0 (headerBytes t p.length ++ p) true).2]) := by
  rw [writePacket_eq t p ht hn hp]
  simp [headerBytes]

/-- A frame with an inconsistent length field, a tail free of preamble bytes, and a
packet from the writer behind it. -/
theorem feed_bad_header_then_packet (h0 h1 h2 h3 h4 h5 t2 : Nat) (tail p2 mem : List Nat)
    (bh : isBytes [h0, h1, h2, h3, h4, h5])
    (hne : 256 * h2 + h3 ≠ 65535 - (256 * h4 + h5))
    (btail : isBytes tail) (hclean : 0xAA ∉ tail)
    (ht2 : t2 < 65536) (hp2 : isBytes p2) (hn2 : p2.length ≤ 12) (hm : mem.length = 20) :
    feed (new mem) [0xAA, h0, h1, h2, h3, h4, h5]
      = some (resync (receiving 0 0 [h0, h1, h2, h3, h4, h5] mem), List.replicate 7 false) ∧
    feed (new mem)
        (0xAA :: h0 :: h1 :: h2 :: h3 :: h4 :: h5 :: tail ++ (writePacket t2 p2 p2.length).1)
      = some (delivered t2 p2 ([h0, h1, h2, h3, h4, h5] ++ mem.drop 6),
          List.replicate (7 + tail.length + 8 + p2.length) false ++ [true]) := by
  have a1 := feed_bad_header (new mem) h0 h1 h2 h3 h4 h5 rfl rfl hm (Or.inl rfl) bh hne
  have hs1 : (resync (receiving 0 0 [h0, h1, h2, h3, h4, h5] mem)).buf.length = 20 :=
    receiving_buf_length 0 0 _ mem hm (by simp)
  have a2 := feed_search (resync (receiving 0 0 [h0, h1, h2, h3, h4, h5] mem)) tail rfl
    (fun b hb => by
      rw [Nat.mod_eq_of_lt (btail b hb)]
      intro h
      exact hclean (by rw [show (0xAA : Nat) = b from h.symm]; exact hb))
  have a3 := feed_packet (resync (receiving 0 0 [h0, h1, h2, h3, h4, h5] mem)) t2 p2 rfl rfl
    hs1 (Or.inl rfl) ht2 hp2 hn2
  refine ⟨a1, ?_⟩
  have shape : 0xAA :: h0 :: h1 :: h2 :: h3 :: h4 :: h5 :: tail ++ (writePacket t2 p2 p2.length).1
      = [0xAA, h0, h1, h2, h3, h4, h5] ++ (tail ++ (writePacket t2 p2 p2.length).1) := by simp
  rw [shape, feed_append_some a1 (feed_append_some a2 a3)]
  simp only [List.replicate_add, List.append_assoc, resync, receiving, List.length_cons,
    List.length_nil]

/-! ## Corrupted payload or checksum -/

theorem fletcherLoop_fst (a b : Nat) (x : List Nat) (ha : a < 255) (hx : isBytes x) :
    (fletcherLoop a b x).1 = (a + x.sum) % 255 := by
  induction x generalizing a b with
  | nil => simp only [fletcherLoop, List.sum_nil]; omega
  | cons d ds ih =>
    have hd : d < 256 := hx d (List.mem_cons_self _ _)
    simp only [fletcherLoop, List.sum_cons]
    rw [ih _ _ (Nat.mod_lt _ (by decide)) (fun y hy => hx y (List.mem_cons_of_mem _ hy))]
    omega

/-- Two byte sequences whose sums differ modulo 255 have different first checksum
bytes. -/
theorem fletcher16_fst_ne (a0 b0 a1 b1 : Nat) (x y : List Nat) (hx : isBytes x)
    (hy : isBytes y) (h : x.sum % 255 ≠ y.sum % 255) :
    (fletcher16 a0 b0 x true).1 ≠ (fletcher16 a1 b1 y true).1 := by
  have ex := fletcherLoop_fst 0 0 x (by decide) hx
  have ey := fletcherLoop_fst 0 0 y (by decide) hy
  simp only [Nat.zero_add] at ex ey
  have rx := remap_mod (x.sum % 255) (Nat.mod_lt _ (by decide))
  have ry := remap_mod (y.sum % 255) (Nat.mod_lt _ (by decide))
  simp only [fletcher16, Bool.not_true, Bool.false_eq_true, if_false, ex, ey]
  intro hEq
  rw [hEq] at rx
  exact h (rx.1.symm.trans ry.1)

theorem sum_set (l : List Nat) (j v : Nat) (hj : j < l.length) :
    (l.set j v).sum + l.getD j 0 = l.sum + v := by
  induction l generalizing j with
  | nil => simp at hj
  | cons a as ih =>
    cases j with
    | zero => simp; omega
    | succ j =>
      have := ih j (by simpa using hj)
      simp only [List.set_cons_succ, List.sum_cons, List.getD_cons_succ]
      omega

theorem isBytes_set (l : List Nat) (j v : Nat) (hl : isBytes l) (hv : v < 256) :
    isBytes (l.set j v) := by
  intro b hb
  rcases List.mem_or_eq_of_mem_set hb with h | h
  · exact hl b h
  · omega

/-- A frame from the writer's header whose checksum bytes do not match its body:
the framer is reset at the last byte, and delivers a packet fed afterwards. -/
theorem feed_bad_checksum_then_packet (t c1 c2 t2 : Nat) (body p2 mem : List Nat)
    (ht : t < 65536) (bb : isBytes body) (hn : body.length ≤ 12) (b1 : c1 < 256)
    (b2 : c2 < 256)
    (hbad : fletcher16 0 0 (headerBytes t body.length ++ body) true ≠ (c1, c2))
    (ht2 : t2 < 65536) (hp2 : isBytes p2) (hn2 : p2.length ≤ 12) (hm : mem.length = 20) :
    ∃ s1 s2 : State,
      feed (new mem) (0xAA :: (t / 256) :: (t % 256) :: (body.length / 256) ::
          (body.length % 256) :: (255 - body.length / 256) :: (255 - body.length % 256) ::
          (body ++ [c1, c2]))
        = some (s1, List.replicate (9 + body.length) false) ∧
      s1.seen_preamble = false ∧ s1.buffer_position = 0 ∧
      feed s1 (writePacket t2 p2 p2.length).1
        = some (s2, List.replicate (8 + p2.length) false ++ [true]) ∧
      s2.packet_type = t2 ∧ (s2.buf.drop 6).take p2.length = p2 := by
  have hb := headerBytes_isBytes t body.length ht (by omega)
  have hf := feed_frame (new mem) (t / 256) (t % 256) (body.length / 256) (body.length % 256)
    (255 - body.length / 256) (255 - body.length % 256) c1 c2 body rfl rfl hm (Or.inl rfl) hb bb
    b1 b2 (by omega) (by omega) hn
  have hbad' : ¬ fletcher16 0 0 ([t / 256, t % 256, body.length / 256, body.length % 256,
      255 - body.length / 256, 255 - body.length % 256] ++ body) true = (c1, c2) := hbad
  rw [if_neg hbad', decide_eq_false hbad'] at hf
  have hlen : (resync (receiving (256 * (t / 256) + t % 256) (8 + body.length)
      ([t / 256, t % 256, body.length / 256, body.length % 256,
        255 - body.length / 256, 255 - body.length % 256] ++ body ++ [c1] ++ [c2])
      mem)).buf.length = 20 :=
    receiving_buf_length (256 * (t / 256) + t % 256) (8 + body.length)
      ([t / 256, t % 256, body.length / 256, body.length % 256,
        255 - body.length / 256, 255 - body.length % 256] ++ body ++ [c1] ++ [c2]) mem hm
      (by simp; omega)
  have hpk := feed_packet _ t2 p2 rfl rfl hlen
    (Or.inr (by simp only [resync, receiving]; omega)) ht2 hp2 hn2
  refine ⟨_, _, ?_, rfl, rfl, hpk, rfl, delivered_payload t2 p2 _⟩
  have shape : (0xAA :: (t / 256) :: (t % 256) :: (body.length / 256) ::
      (body.length % 256) :: (255 - body.length / 256) :: (255 - body.length % 256) ::
      (body ++ [c1, c2]))
      = [0xAA, t / 256, t % 256, body.length / 256, body.length % 256,
          255 - body.length / 256, 255 - body.length % 256] ++ body ++ [c1, c2] := by simp
  rw [shape, hf]
  have e : List.replicate (8 + body.length) false ++ [false]
      = List.replicate (9 + body.length) false := by
    rw [show 9 + body.length = (8 + body.length) + 1 by omega, List.replicate_succ']
  rw [e]
  rfl

/-- Below the 16-bit wrap the oversize guard works: a consistent header whose
length field is between 13 and 65527 resets the framer at its sixth byte. -/
theorem oversized_header_rejected (ptype plen h0 h1 h2 h3 h4 h5 : Nat) (mem : List Nat)
    (hm : mem.length = 20) (bh : isBytes [h0, h1, h2, h3, h4, h5])
    (hc : 256 * h2 + h3 = 65535 - (256 * h4 + h5))
    (hlo : 13 ≤ 256 * h2 + h3) (hhi : 256 * h2 + h3 ≤ 65527) :
    readOneByteAndVerify (receiving ptype plen [h0, h1, h2, h3, h4] mem) h5 =
      some (resync (receiving (256 * h0 + h1) (6 + (256 * h2 + h3) + 2)
        [h0, h1, h2, h3, h4, h5] mem), false) := by
  have x0 : h0 < 256 := bh h0 (by simp)
  have x1 : h1 < 256 := bh h1 (by simp)
  have x2 : h2 < 256 := bh h2 (by simp)
  have x3 : h3 < 256 := bh h3 (by simp)
  have x4 : h4 < 256 := bh h4 (by simp)
  have x5 : h5 < 256 := bh h5 (by simp)
  have hd := read_header ptype plen h0 h1 h2 h3 h4 h5 mem hm x5
  rw [be16_eq h0 h1 x0 x1, be16_eq h2 h3 x2 x3, be16_eq h4 h5 x4 x5] at hd
  have hnot : not16 (256 * h4 + h5) = 65535 - (256 * h4 + h5) := by unfold not16; omega
  have e : (6 + (256 * h2 + h3) + 2) % 65536 = 6 + (256 * h2 + h3) + 2 := by omega
  rw [hnot, if_neg (not_not.mpr hc), e, if_pos (by omega)] at hd
  exact hd

theorem fletcherLoop_le (a b : Nat) (x : List Nat) (ha : a ≤ 255) (hb : b ≤ 255) :
    (fletcherLoop a b x).1 ≤ 255 ∧ (fletcherLoop a b x).2 ≤ 255 := by
  cases x with
  | nil => exact ⟨ha, hb⟩
  | cons d ds =>
    simp only [fletcherLoop]
    have h := fletcherLoop_lt (((a + d) % 65536) % 255)
      (((b + ((a + d) % 65536) % 255) % 65536) % 255) ds
      (Nat.mod_lt _ (by decide)) (Nat.mod_lt _ (by decide))
    omega

/-- The header step from any state with the preamble seen and five bytes stored. -/
theorem read_header_at (s : State) (b : Nat) (hs : s.seen_preamble = true)
    (hp : s.buffer_position = 5) (hm : s.buf.length = 20) (hb : b < 256) :
    readOneByteAndVerify s b =
      if be16 (s.buf.getD 2 0) (s.buf.getD 3 0) ≠ not16 (be16 (s.buf.getD 4 0) b) then
        some ({ s with buf := s.buf.set 5 b, seen_preamble := false, buffer_position := 0 },
          false)
      else if (6 + be16 (s.buf.getD 2 0) (s.buf.getD 3 0) + 2) % 65536 > 20 then
        some ({ s with
          buf := s.buf.set 5 b,
          packet_type := be16 (s.buf.getD 0 0) (s.buf.getD 1 0),
          packet_length := (6 + be16 (s.buf.getD 2 0) (s.buf.getD 3 0) + 2) % 65536,
          seen_preamble := false, buffer_position := 0 }, false)
      else
        some ({ s with
          buf := s.buf.set 5 b,
          packet_type := be16 (s.buf.getD 0 0) (s.buf.getD 1 0),
          packet_length := (6 + be16 (s.buf.getD 2 0) (s.buf.getD 3 0) + 2) % 65536,
          buffer_position := 6 }, false) := by
  have hform := receiving_five s hs hp hm
  have hbuf6 : s.buf.set 5 b =
      [s.buf.getD 0 0, s.buf.getD 1 0, s.buf.getD 2 0, s.buf.getD 3 0, s.buf.getD 4 0, b]
        ++ s.buf.drop 6 := by
    have h := receiving_snoc_buf
      [s.buf.getD 0 0, s.buf.getD 1 0, s.buf.getD 2 0, s.buf.getD 3 0, s.buf.getD 4 0] s.buf b
      (by simp [hm])
    have hb5 := congrArg State.buf hform
    simp only [receiving] at hb5
    rw [← hb5] at h
    simpa using h
  have hd := read_header s.packet_type s.packet_length (s.buf.getD 0 0) (s.buf.getD 1 0)
    (s.buf.getD 2 0) (s.buf.getD 3 0) (s.buf.getD 4 0) b s.buf hm hb
  rw [← hform] at hd
  rw [hd, hbuf6]
  obtain ⟨pt, pl, pos, seen, buf⟩ := s
  simp only at hs hp
  subst hs hp
  simp only [resync, receiving, List.length_cons, List.length_nil]

/-! ## The checksum in closed form -/

theorem fletcherLoop_snd (a b : Nat) (x : List Nat) (ha : a < 255) (hb : b < 255)
    (hx : isBytes x) :
    (fletcherLoop a b x).2 = (b + x.length * a + weightedSum x) % 255 := by
  induction x generalizing a b with
  | nil => simp only [fletcherLoop, List.length_nil, weightedSum]; omega
  | cons d ds ih =>
    have hd : d < 256 := hx d (List.mem_cons_self _ _)
    simp only [fletcherLoop, List.length_cons, weightedSum]
    rw [ih _ _ (Nat.mod_lt _ (by decide)) (Nat.mod_lt _ (by decide))
      (fun y hy => hx y (List.mem_cons_of_mem _ hy))]
    have e1 : (a + d) % 65536 % 255 = (a + d) % 255 := by omega
    have e2 : (b + (a + d) % 255) % 65536 % 255 = (b + (a + d) % 255) % 255 := by omega
    rw [e1, e2]
    have h1 : (a + d) % 255 ≡ a + d [MOD 255] := Nat.mod_modEq _ _
    have h2 : (b + (a + d) % 255) % 255 ≡ b + (a + d) [MOD 255] :=
      (Nat.mod_modEq _ _).trans (Nat.ModEq.add_left b h1)
    have h3 : (b + (a + d) % 255) % 255 + ds.length * ((a + d) % 255) + weightedSum ds
        ≡ b + (a + d) + ds.length * (a + d) + weightedSum ds [MOD 255] :=
      Nat.ModEq.add_right _ (Nat.ModEq.add h2 (Nat.ModEq.mul_left _ h1))
    have h4 : b + (a + d) + ds.length * (a + d) + weightedSum ds
        = b + (ds.length + 1) * a + ((ds.length + 1) * d + weightedSum ds) := by ring
    rw [h4] at h3
    exact h3

theorem fletcher16_closed (a b : Nat) (x : List Nat) (hx : isBytes x) :
    fletcher16 a b x true = fletcherClosed x := by
  have e1 := fletcherLoop_fst 0 0 x (by decide) hx
  have e2 := fletcherLoop_snd 0 0 x (by decide) (by decide) hx
  simp only [Nat.zero_add, Nat.mul_zero] at e1 e2
  have key : ∀ r : Nat, (if ((r % 255) == 0) = true then 0xFF else r % 255) % 256
      = residueByte r := by
    intro r
    unfold residueByte
    by_cases h : r % 255 = 0
    · simp [h]
    · have : ((r % 255) == 0) = false := by simpa using h
      simp only [this, h]; simp; omega
  simp only [fletcher16, fletcherClosed, Bool.not_true, Bool.false_eq_true, if_false, e1, e2, key]

/-! ## Bytes the checksum cannot tell apart -/

theorem fletcherLoop_blind (a b : Nat) (pre post : List Nat) (ha : a ≤ 255) (hb : b ≤ 255) :
    fletcherLoop a b (pre ++ 0 :: post) = fletcherLoop a b (pre ++ 0xFF :: post) := by
  have h := fletcherLoop_le a b pre ha hb
  rw [fletcherLoop_append, fletcherLoop_append]
  simp only [fletcherLoop]
  have e : ((fletcherLoop a b pre).1 + 0) % 65536 % 255
      = ((fletcherLoop a b pre).1 + 0xFF) % 65536 % 255 := by omega
  rw [e]

theorem fletcher16_blind (a b : Nat) (r : Bool) (x : List Nat) (i v w : Nat) (ha : a ≤ 255)
    (hb : b ≤ 255) (hi : i < x.length) (hx : x.getD i 0 = v)
    (hvw : (v = 0 ∧ w = 0xFF) ∨ (v = 0xFF ∧ w = 0)) :
    fletcher16 a b (x.set i w) r = fletcher16 a b x r := by
  have hsplit : x = x.take i ++ v :: x.drop (i + 1) := by
    rw [← hx, List.getD_eq_getElem _ _ hi]
    simp
  have hset : x.set i w = x.take i ++ w :: x.drop (i + 1) := by
    rw [List.set_eq_take_append_cons_drop, if_pos hi]
  have hloop : ∀ a' b' : Nat, a' ≤ 255 → b' ≤ 255 →
      fletcherLoop a' b' (x.set i w) = fletcherLoop a' b' x := by
    intro a' b' ha' hb'
    rw [hset]
    conv_rhs => rw [hsplit]
    rcases hvw with ⟨rfl, rfl⟩ | ⟨rfl, rfl⟩
    · exact (fletcherLoop_blind a' b' _ _ ha' hb').symm
    · exact fletcherLoop_blind a' b' _ _ ha' hb'
  cases r with
  | true => simp only [fletcher16, Bool.not_true, Bool.false_eq_true, if_false,
      hloop 0 0 (by decide) (by decide)]
  | false => simp only [fletcher16, Bool.not_false, if_true, hloop a b ha hb]

/-! ## Frames with one altered byte -/

theorem writePacket_data (t : Nat) (p : List Nat) (ht : t < 65536) (hn : p.length < 65536)
    (hp : isBytes p) :
    (writePacket t p p.length).1 =
      0xAA :: ((headerBytes t p.length ++ p) ++
        [(fletcher16 0 0 (headerBytes t p.length ++ p) true).1,
         (fletcher16 0 0 (headerBytes t p.length ++ p) true).2]) := by
  rw [writePacket_eq t p ht hn hp]
  simp

/-- A frame with any two type bytes, the length fields of its body and any two
checksum bytes, fed to a framer that searches for the preamble. -/
theorem feed_data_frame (s : State) (h0 h1 c1 c2 : Nat) (body : List Nat)
    (hs : s.seen_preamble = false) (hp : s.buffer_position = 0) (hm : s.buf.length = 20)
    (hstale : s.packet_length = 0 ∨ 6 ≤ s.packet_length)
    (x0 : h0 < 256) (x1 : h1 < 256) (bb : isBytes body) (b1 : c1 < 256) (b2 : c2 < 256)
    (hn : body.length ≤ 12) :
    ∃ st : State,
      feed s (0xAA :: ((h0 :: h1 :: (body.length / 256) :: (body.length % 256) ::
          (255 - body.length / 256) :: (255 - body.length % 256) :: body) ++ [c1, c2]))
        = some (st, List.replicate (8 + body.length) false ++
            [decide (fletcher16 0 0 (h0 :: h1 :: (body.length / 256) :: (body.length % 256) ::
              (255 - body.length / 256) :: (255 - body.length % 256) :: body) true = (c1, c2))]) ∧
      (fletcher16 0 0 (h0 :: h1 :: (body.length / 256) :: (body.length % 256) ::
          (255 - body.length / 256) :: (255 - body.length % 256) :: body) true ≠ (c1, c2) →
        st.seen_preamble = false ∧ st.buffer_position = 0) := by
  have bh : isBytes [h0, h1, body.length / 256, body.length % 256, 255 - body.length / 256,
      255 - body.length % 256] := by
    intro b hb
    simp only [List.mem_cons, List.mem_singleton, List.not_mem_nil, or_false] at hb
    omega
  have hf := feed_frame s h0 h1 (body.length / 256) (body.length % 256)
    (255 - body.length / 256) (255 - body.length % 256) c1 c2 body hs hp hm hstale bh bb
    b1 b2 (by omega) (by omega) hn
  have shape : (0xAA :: ((h0 :: h1 :: (body.length / 256) :: (body.length % 256) ::
      (255 - body.length / 256) :: (255 - body.length % 256) :: body) ++ [c1, c2]))
      = [0xAA, h0, h1, body.length / 256, body.length % 256,
          255 - body.length / 256, 255 - body.length % 256] ++ body ++ [c1, c2] := by simp
  have dshape : (h0 :: h1 :: (body.length / 256) :: (body.length % 256) ::
      (255 - body.length / 256) :: (255 - body.length % 256) :: body)
      = [h0, h1, body.length / 256, body.length % 256,
          255 - body.length / 256, 255 - body.length % 256] ++ body := by simp
  rw [shape, dshape, hf]
  refine ⟨_, rfl, fun hne => ?_⟩
  rw [if_neg hne]
  exact ⟨rfl, rfl⟩

theorem set_data_shape (t : Nat) (p : List Nat) (idx w : Nat)
    (hidx : idx = 0 ∨ idx = 1 ∨ 6 ≤ idx) (ht : t < 65536) (hp : isBytes p) (hw : w < 256) :
    ∃ h0 h1 body, (headerBytes t p.length ++ p).set idx w =
        h0 :: h1 :: (p.length / 256) :: (p.length % 256) ::
          (255 - p.length / 256) :: (255 - p.length % 256) :: body ∧
      body.length = p.length ∧ h0 < 256 ∧ h1 < 256 ∧ isBytes body := by
  rcases hidx with rfl | rfl | h6
  · exact ⟨w, t % 256, p, by simp [headerBytes], rfl, hw, by omega, hp⟩
  · exact ⟨t / 256, w, p, by simp [headerBytes], rfl, by omega, hw, hp⟩
  · obtain ⟨j, rfl⟩ : ∃ j, idx = j + 6 := ⟨idx - 6, by omega⟩
    exact ⟨t / 256, t % 256, p.set j w, by simp [headerBytes], by simp, by omega, by omega,
      isBytes_set p j w hp hw⟩

/-- A packet from the writer in which one type or payload byte (index `idx` of the
checksummed data) is replaced by `w`, with any two checksum bytes. -/
theorem feed_altered (s : State) (t : Nat) (p : List Nat) (idx w c1 c2 : Nat)
    (hs : s.seen_preamble = false) (hpos : s.buffer_position = 0) (hm : s.buf.length = 20)
    (hstale : s.packet_length = 0 ∨ 6 ≤ s.packet_length)
    (hidx : idx = 0 ∨ idx = 1 ∨ 6 ≤ idx) (ht : t < 65536) (hp : isBytes p)
    (hn : p.length ≤ 12) (hw : w < 256) (b1 : c1 < 256) (b2 : c2 < 256) :
    ∃ st : State,
      feed s (0xAA :: ((headerBytes t p.length ++ p).set idx w ++ [c1, c2]))
        = some (st, List.replicate (8 + p.length) false ++
            [decide (fletcher16 0 0 ((headerBytes t p.length ++ p).set idx w) true = (c1, c2))]) ∧
      (fletcher16 0 0 ((headerBytes t p.length ++ p).set idx w) true ≠ (c1, c2) →
        st.seen_preamble = false ∧ st.buffer_position = 0) := by
  obtain ⟨h0, h1, body, hshape, hlen, x0, x1, bb⟩ := set_data_shape t p idx w hidx ht hp hw
  have h := feed_data_frame s h0 h1 c1 c2 body hs hpos hm hstale x0 x1 bb b1 b2
    (by rw [hlen]; exact hn)
  rw [hlen] at h
  rw [hshape]
  exact h

theorem data_getD_byte (t : Nat) (p : List Nat) (idx : Nat) (ht : t < 65536)
    (hn : p.length < 65536) (hp : isBytes p) :
    (headerBytes t p.length ++ p).getD idx 0 < 256 := by
  rw [List.getD_eq_getElem?_getD]
  cases h : (headerBytes t p.length ++ p)[idx]? with
  | none => simp
  | some v =>
    have hmem := List.getElem?_mem h
    rcases List.mem_append.mp hmem with h1 | h1
    · exact headerBytes_isBytes t p.length ht hn v h1
    · exact hp v h1

set_option maxRecDepth 100000 in
theorem flip_mod255 : ∀ k, k < 8 → ∀ x, x < 256 → (x ^^^ 2 ^ k) % 255 ≠ x % 255 := by
  decide

/-- A packet from the writer with one type or payload byte replaced, or none, and
two checksum bytes that do not match: every byte returns `false` and the framer is
reset after the last. -/
theorem feed_altered_rejected (t : Nat) (p mem : List Nat) (idx w c1 c2 : Nat)
    (hidx : idx = 0 ∨ idx = 1 ∨ 6 ≤ idx) (ht : t < 65536) (hp : isBytes p)
    (hn : p.length ≤ 12) (hw : w < 256) (b1 : c1 < 256) (b2 : c2 < 256) (hm : mem.length = 20)
    (hbad : fletcher16 0 0 ((headerBytes t p.length ++ p).set idx w) true ≠ (c1, c2)) :
    ∃ s1 : State,
      feed (new mem) (0xAA :: ((headerBytes t p.length ++ p).set idx w ++ [c1, c2]))
        = some (s1, List.replicate (9 + p.length) false) ∧
      s1.seen_preamble = false ∧ s1.buffer_position = 0 := by
  obtain ⟨st, hfeed, hreset⟩ := feed_altered (new mem) t p idx w c1 c2 rfl rfl hm (Or.inl rfl)
    hidx ht hp hn hw b1 b2
  refine ⟨st, ?_, hreset hbad⟩
  rw [hfeed, decide_eq_false hbad,
    show 9 + p.length = (8 + p.length) + 1 by omega, List.replicate_succ']

theorem data_length (t : Nat) (p : List Nat) : (headerBytes t p.length ++ p).length = 6 + p.length := by
  simp [headerBytes]; omega

theorem data_isBytes (t : Nat) (p : List Nat) (ht : t < 65536) (hn : p.length < 65536)
    (hp : isBytes p) : isBytes (headerBytes t p.length ++ p) := by
  intro b hb
  rcases List.mem_append.mp hb with h | h
  · exact headerBytes_isBytes t p.length ht hn b h
  · exact hp b h

/-! ## Draining the stream -/

theorem feed_cons (s : State) (b : Nat) (bs : List Nat) :
    feed s (b :: bs) =
      (readOneByteAndVerify s b).bind fun p => (feed p.1 bs).map fun q => (q.1, p.2 :: q.2) := by
  rw [show b :: bs = [b] ++ bs from rfl, feed_bind]
  cases h : readOneByteAndVerify s b with
  | none => simp [feed, h]
  | some p => simp [feed, h]

theorem drain_true_iff (s s' : State) (bs rest : List Nat) :
    readAllRemainingAndVerify s bs = some (s', rest, true) ↔
      ∃ pre b, bs = pre ++ b :: rest ∧
        feed s (pre ++ [b]) = some (s', List.replicate pre.length false ++ [true]) := by
  induction bs generalizing s with
  | nil =>
    simp only [readAllRemainingAndVerify, Option.some.injEq, Prod.mk.injEq, Bool.false_eq_true,
      and_false, false_iff, not_exists]
    intro pre b h
    simp at h
  | cons c cs ih =>
    simp only [readAllRemainingAndVerify]
    cases hc : readOneByteAndVerify s c with
    | none =>
      simp only [false_iff, not_exists, not_and, reduceCtorEq]
      intro pre b _ hfeed
      cases pre with
      | nil => simp [feed, hc] at hfeed ; simp_all
      | cons x xs => simp_all [feed]
    | some q =>
      obtain ⟨s1, r⟩ := q
      cases r with
      | true =>
        simp only [if_true, Option.some.injEq, Prod.mk.injEq, and_true]
        constructor
        · rintro ⟨rfl, rfl⟩
          exact ⟨[], c, rfl, by simp [feed, hc]⟩
        · rintro ⟨pre, b, hsplit, hfeed⟩
          cases pre with
          | nil =>
            simp only [List.nil_append, List.cons.injEq] at hsplit
            obtain ⟨rfl, rfl⟩ := hsplit
            simp [feed, hc] at hfeed
            exact ⟨hfeed, rfl⟩
          | cons x xs =>
            simp only [List.cons_append, List.cons.injEq] at hsplit
            obtain ⟨rfl, _⟩ := hsplit
            rw [List.cons_append, feed_cons, hc] at hfeed
            simp [List.replicate_succ] at hfeed
      | false =>
        simp only [Bool.false_eq_true, if_false]
        rw [ih s1]
        constructor
        · rintro ⟨pre, b, rfl, hfeed⟩
          exact ⟨c :: pre, b, rfl, by simp [feed, hc, hfeed, List.replicate_succ]⟩
        · rintro ⟨pre, b, hsplit, hfeed⟩
          cases pre with
          | nil =>
            simp only [List.nil_append, List.cons.injEq] at hsplit
            obtain ⟨rfl, rfl⟩ := hsplit
            simp [feed, hc] at hfeed
          | cons x xs =>
            simp only [List.cons_append, List.cons.injEq] at hsplit
            obtain ⟨rfl, rfl⟩ := hsplit
            refine ⟨xs, b, rfl, ?_⟩
            rw [List.cons_append, feed_cons, hc] at hfeed
            simp only [Option.some_bind] at hfeed
            cases hx : feed s1 (xs ++ [b]) with
            | none => rw [hx] at hfeed; simp at hfeed
            | some q2 =>
              obtain ⟨s2, r2⟩ := q2
              rw [hx] at hfeed
              simp only [Option.some_bind, Option.map_some', Option.some.injEq, Prod.mk.injEq,
                List.length_cons, List.replicate_succ, List.cons_append, List.cons.injEq,
                true_and] at hfeed
              rw [hfeed.1, hfeed.2]

theorem drain_false_iff (s s' : State) (bs rest : List Nat) :
    readAllRemainingAndVerify s bs = some (s', rest, false) ↔
      rest = [] ∧ feed s bs = some (s', List.replicate bs.length false) := by
  induction bs generalizing s with
  | nil =>
    simp only [readAllRemainingAndVerify, feed, Option.some.injEq, Prod.mk.injEq, and_true,
      List.length_nil, List.replicate_zero]
    constructor
    · rintro ⟨rfl, rfl⟩; exact ⟨rfl, rfl⟩
    · rintro ⟨rfl, rfl⟩; exact ⟨rfl, rfl⟩
  | cons c cs ih =>
    simp only [readAllRemainingAndVerify]
    rw [feed_cons]
    cases hc : readOneByteAndVerify s c with
    | none => simp
    | some q =>
      obtain ⟨s1, r⟩ := q
      cases r with
      | true => simp [List.replicate_succ]
      | false =>
        simp only [Bool.false_eq_true, if_false, Option.some_bind]
        rw [ih s1]
        cases hx : feed s1 cs with
        | none => simp
        | some q2 =>
          obtain ⟨s2, r2⟩ := q2
          simp [List.replicate_succ]

theorem drain_none_iff (s : State) (bs : List Nat) :
    readAllRemainingAndVerify s bs = none ↔
      ∃ pre b post s0, bs = pre ++ b :: post ∧
        feed s pre = some (s0, List.replicate pre.length false) ∧
        readOneByteAndVerify s0 b = none := by
  induction bs generalizing s with
  | nil =>
    simp only [readAllRemainingAndVerify, reduceCtorEq, false_iff, not_exists, not_and]
    intro pre b post s0 h
    simp at h
  | cons c cs ih =>
    simp only [readAllRemainingAndVerify]
    cases hc : readOneByteAndVerify s c with
    | none =>
      simp only [true_iff]
      exact ⟨[], c, cs, s, rfl, rfl, hc⟩
    | some q =>
      obtain ⟨s1, r⟩ := q
      cases r with
      | true =>
        simp only [if_true, reduceCtorEq, false_iff, not_exists, not_and]
        intro pre b post s0 hsplit hfeed
        cases pre with
        | nil =>
          simp only [List.nil_append, List.cons.injEq] at hsplit
          obtain ⟨rfl, rfl⟩ := hsplit
          simp only [feed, Option.some.injEq, Prod.mk.injEq, List.length_nil,
            List.replicate_zero, and_true] at hfeed
          subst hfeed
          simp [hc]
        | cons x xs =>
          simp only [List.cons_append, List.cons.injEq] at hsplit
          obtain ⟨rfl, _⟩ := hsplit
          rw [feed_cons, hc] at hfeed
          simp [List.replicate_succ] at hfeed
      | false =>
        simp only [Bool.false_eq_true, if_false]
        rw [ih s1]
        constructor
        · rintro ⟨pre, b, post, s0, rfl, hfeed, hb⟩
          refine ⟨c :: pre, b, post, s0, rfl, ?_, hb⟩
          rw [feed_cons, hc]
          simp [hfeed, List.replicate_succ]
        · rintro ⟨pre, b, post, s0, hsplit, hfeed, hb⟩
          cases pre with
          | nil =>
            simp only [List.nil_append, List.cons.injEq] at hsplit
            obtain ⟨rfl, rfl⟩ := hsplit
            simp only [feed, Option.some.injEq, Prod.mk.injEq, List.length_nil,
              List.replicate_zero, and_true] at hfeed
            subst hfeed
            rw [hc] at hb
            simp at hb
          | cons x xs =>
            simp only [List.cons_append, List.cons.injEq] at hsplit
            obtain ⟨rfl, rfl⟩ := hsplit
            refine ⟨xs, b, post, s0, rfl, ?_, hb⟩
            rw [feed_cons, hc] at hfeed
            simp only [Option.some_bind] at hfeed
            cases hx : feed s1 xs with
            | none => rw [hx] at hfeed; simp at hfeed
            | some q2 =>
              obtain ⟨s2, r2⟩ := q2
              rw [hx] at hfeed
              simp only [Option.map_some', Option.some.injEq, Prod.mk.injEq,
                List.length_cons, List.replicate_succ, List.cons.injEq, true_and] at hfeed
              rw [hfeed.1, hfeed.2]

/-! ## Steps from an arbitrary state -/

theorem take_eq_of_le {l1 l2 : List Nat} {n m : Nat} (h : l1.take n = l2.take n) (hmn : m ≤ n) :
    l1.take m = l2.take m := by
  have := congrArg (List.take m) h
  simpa [List.take_take, Nat.min_eq_left hmn] using this

theorem getD_eq_of_take {l1 l2 : List Nat} {n i : Nat} (h : l1.take n = l2.take n)
    (hi : i < n) : l1.getD i 0 = l2.getD i 0 := by
  have a : l1[i]? = (l1.take n)[i]? := (List.getElem?_take_of_lt hi).symm
  have b : l2[i]? = (l2.take n)[i]? := (List.getElem?_take_of_lt hi).symm
  rw [List.getD_eq_getElem?_getD, List.getD_eq_getElem?_getD, a, b, h]

theorem take_set_succ (l : List Nat) (n v : Nat) (hn : n < l.length) :
    (l.set n v).take (n + 1) = l.take n ++ [v] := by
  rw [List.set_eq_take_append_cons_drop, if_pos hn,
    show l.take n ++ v :: l.drop (n + 1) = (l.take n ++ [v]) ++ l.drop (n + 1) by simp]
  exact List.take_left' (by simp; omega)

theorem getD_set_ne (l : List Nat) (n i v : Nat) (h : i ≠ n) :
    (l.set n v).getD i 0 = l.getD i 0 := by
  rw [List.getD_eq_getElem?_getD, List.getD_eq_getElem?_getD, List.getElem?_set_ne (Ne.symm h)]

theorem read_mod (s : State) (b : Nat) :
    readOneByteAndVerify s b = readOneByteAndVerify s (b % 256) := by
  unfold readOneByteAndVerify
  simp only [Nat.mod_mod]

/-- The step for a byte that is stored anywhere but at `buf[5]`. -/
theorem read_plain_at (s : State) (b : Nat) (hs : s.seen_preamble = true)
    (hlt : s.buffer_position < 20) (h5 : s.buffer_position ≠ 5) :
    readOneByteAndVerify s b =
      if s.buffer_position + 1 = s.packet_length then
        match verifyPacket { s with buf := s.buf.set s.buffer_position (b % 256),
                                    buffer_position := s.buffer_position + 1 } with
        | none => none
        | some ok =>
          if ok then
            some ({ s with buf := s.buf.set s.buffer_position (b % 256),
                           buffer_position := s.buffer_position + 1 }, true)
          else
            some ({ s with buf := s.buf.set s.buffer_position (b % 256),
                           buffer_position := 0, seen_preamble := false }, false)
      else
        some ({ s with buf := s.buf.set s.buffer_position (b % 256),
                       buffer_position := s.buffer_position + 1 }, false) := by
  have e : (s.buffer_position + 1) % 65536 = s.buffer_position + 1 := by omega
  have h6 : ¬ s.buffer_position + 1 = 6 := by omega
  unfold readOneByteAndVerify
  simp only [hs, Bool.not_true, Bool.false_eq_true, if_false, SERIAL_PROTO_BUFFER_SIZE, hlt,
    if_true, e, header_length, beq_iff_eq, h6]
  by_cases hpl : s.buffer_position + 1 = s.packet_length
  · simp only [hpl, if_true]
    cases verifyPacket _ with
    | none => rfl
    | some ok => cases ok <;> simp
  · simp only [hpl, if_false]

theorem verifyPacket_congr (s t : State) (hpl : s.packet_length = t.packet_length)
    (hbuf : s.buf.take s.packet_length = t.buf.take s.packet_length) :
    verifyPacket s = verifyPacket t := by
  unfold verifyPacket
  rw [← hpl]
  by_cases h : 2 ≤ s.packet_length ∧ s.packet_length ≤ 20
  · have e1 := take_eq_of_le hbuf (Nat.sub_le s.packet_length 2)
    have e2 := getD_eq_of_take hbuf (by omega : s.packet_length - 2 < s.packet_length)
    have e3 := getD_eq_of_take hbuf (by omega : s.packet_length - 1 < s.packet_length)
    simp only [checksum_length, SERIAL_PROTO_BUFFER_SIZE, e1, e2, e3]
  · simp only [checksum_length, SERIAL_PROTO_BUFFER_SIZE, h, if_false]

theorem read_overrun (s : State) (b : Nat) (hs : s.seen_preamble = true)
    (hge : 20 ≤ s.buffer_position) : readOneByteAndVerify s b = none := by
  unfold readOneByteAndVerify
  simp only [hs, Bool.not_true, Bool.false_eq_true, if_false, SERIAL_PROTO_BUFFER_SIZE]
  rw [if_neg (by omega)]

/-! ## Framers with the same view -/

theorem sameView_step (s1 s2 : State) (b : Nat) (h : sameView s1 s2) :
    (readOneByteAndVerify s1 b = none ∧ readOneByteAndVerify s2 b = none) ∨
    ∃ t1 t2 r, readOneByteAndVerify s1 b = some (t1, r) ∧
      readOneByteAndVerify s2 b = some (t2, r) ∧ sameView t1 t2 := by
  obtain ⟨pt1, pl1, pos, seen, buf1⟩ := s1
  obtain ⟨pt2, pl2, pos2, seen2, buf2⟩ := s2
  obtain ⟨hseen, hpos, hl1, hl2, htake, hzero, hpl, hst⟩ := h
  simp only at hseen hpos hl1 hl2 htake hzero hpl hst
  subst hseen hpos
  cases seen with
  | false =>
    have hp0 := hzero rfl
    subst hp0
    right
    rw [read_search _ b rfl, read_search _ b rfl]
    by_cases hb : b % 256 = preamble_byte
    · simp only [hb, if_true]
      exact ⟨_, _, false, rfl, rfl, rfl, rfl, hl1, hl2, htake, by simp, by simp,
        fun _ => hst (by simp)⟩
    · simp only [hb, if_false]
      exact ⟨_, _, false, rfl, rfl, rfl, rfl, hl1, hl2, htake, by simp, by simp,
        fun _ => hst (by simp)⟩
  | true =>
    by_cases hlt : pos < 20
    · by_cases h5 : pos = 5
      · -- the sixth header byte
        subst h5
        right
        have hst' := hst (by simp)
        have hb : b % 256 < 256 := Nat.mod_lt _ (by decide)
        have g0 := getD_eq_of_take htake (by decide : 0 < 5)
        have g1 := getD_eq_of_take htake (by decide : 1 < 5)
        have g2 := getD_eq_of_take htake (by decide : 2 < 5)
        have g3 := getD_eq_of_take htake (by decide : 3 < 5)
        have g4 := getD_eq_of_take htake (by decide : 4 < 5)
        have t6 : (buf1.set 5 (b % 256)).take 6 = (buf2.set 5 (b % 256)).take 6 := by
          rw [take_set_succ buf1 5 _ (by omega), take_set_succ buf2 5 _ (by omega), htake]
        rw [read_mod _ b, read_mod _ b,
          read_header_at _ (b % 256) rfl rfl hl1 hb, read_header_at _ (b % 256) rfl rfl hl2 hb]
        simp only [g0, g1, g2, g3, g4]
        by_cases hc : be16 (buf2.getD 2 0) (buf2.getD 3 0) = not16 (be16 (buf2.getD 4 0) (b % 256))
        · rw [if_neg (not_not.mpr hc), if_neg (not_not.mpr hc)]
          by_cases hbig : (6 + be16 (buf2.getD 2 0) (buf2.getD 3 0) + 2) % 65536 > 20
          · rw [if_pos hbig, if_pos hbig]
            refine ⟨_, _, false, rfl, rfl, rfl, rfl, by simpa using hl1, by simpa using hl2,
              by simp, by simp, by simp, fun _ => ?_⟩
            simp only
            omega
          · rw [if_neg hbig, if_neg hbig]
            exact ⟨_, _, false, rfl, rfl, rfl, rfl, by simpa using hl1, by simpa using hl2,
              t6, by simp, by simp, by simp⟩
        · rw [if_pos hc, if_pos hc]
          exact ⟨_, _, false, rfl, rfl, rfl, rfl, by simpa using hl1, by simpa using hl2,
            by simp, by simp, by simp, fun _ => hst'⟩
      · -- any other stored byte
        have tk : (buf1.set pos (b % 256)).take (pos + 1) = (buf2.set pos (b % 256)).take (pos + 1) := by
          rw [take_set_succ buf1 pos _ (by omega), take_set_succ buf2 pos _ (by omega), htake]
        rw [read_plain_at _ b rfl hlt h5, read_plain_at _ b rfl hlt h5]
        simp only
        by_cases h6 : 6 ≤ pos
        · have hple := hpl ⟨rfl, h6⟩
          subst hple
          by_cases hv : pos + 1 = pl1
          · rw [if_pos hv, if_pos hv]
            have hcongr := verifyPacket_congr
              { packet_type := pt1
                packet_length := pl1
                buffer_position := pos + 1
                seen_preamble := true
                buf := buf1.set pos (b % 256) }
              { packet_type := pt2
                packet_length := pl1
                buffer_position := pos + 1
                seen_preamble := true
                buf := buf2.set pos (b % 256) } rfl
              (by simp only; rw [← hv]; exact tk)
            rw [hcongr]
            cases hr : verifyPacket
                { packet_type := pt2
                  packet_length := pl1
                  buffer_position := pos + 1
                  seen_preamble := true
                  buf := buf2.set pos (b % 256) } with
            | none => left; exact ⟨rfl, rfl⟩
            | some ok =>
              right
              cases ok with
              | true =>
                exact ⟨_, _, true, rfl, rfl, rfl, rfl, by simpa using hl1, by simpa using hl2,
                  tk, by simp, by simp, by simp; omega⟩
              | false =>
                refine ⟨_, _, false, rfl, rfl, rfl, rfl, by simpa using hl1,
                  by simpa using hl2, by simp, by simp, by simp, fun _ => ?_⟩
                simp only
                omega
          · rw [if_neg hv, if_neg hv]
            right
            exact ⟨_, _, false, rfl, rfl, rfl, rfl, by simpa using hl1, by simpa using hl2,
              tk, by simp, by simp, by simp; omega⟩
        · have hst' := hst (by simp; omega)
          rw [if_neg (by omega), if_neg (by omega)]
          right
          refine ⟨_, _, false, rfl, rfl, rfl, rfl, by simpa using hl1, by simpa using hl2,
            tk, by simp, ?_, fun _ => hst'⟩
          simp only
          intro hh
          omega
    · left
      exact ⟨read_overrun _ b rfl (by simpa using hlt), read_overrun _ b rfl (by simpa using hlt)⟩

theorem sameView_feed (u : List Nat) :
    ∀ s1 s2 : State, sameView s1 s2 →
      (feed s1 u).map Prod.snd = (feed s2 u).map Prod.snd := by
  induction u with
  | nil => intro s1 s2 _; rfl
  | cons b bs ih =>
    intro s1 s2 h
    rw [feed_cons, feed_cons]
    rcases sameView_step s1 s2 b h with ⟨h1, h2⟩ | ⟨t1, t2, r, h1, h2, ht⟩
    · rw [h1, h2]
    · rw [h1, h2]
      have := ih t1 t2 ht
      simp only [Option.some_bind]
      cases hf1 : feed t1 bs with
      | none =>
        rw [hf1] at this
        cases hf2 : feed t2 bs with
        | none => rfl
        | some q => rw [hf2] at this; simp at this
      | some q1 =>
        rw [hf1] at this
        cases hf2 : feed t2 bs with
        | none => rw [hf2] at this; simp at this
        | some q2 =>
          rw [hf2] at this
          simp only [Option.map_some', Option.some.injEq] at this ⊢
          rw [this]

theorem sameView_reachable (bs : List Nat) :
    ∀ (s s' : State) (rs : List Bool), sameView s s → feed s bs = some (s', rs) →
      sameView s' s' := by
  induction bs with
  | nil =>
    intro s s' rs h hf
    simp only [feed, Option.some.injEq, Prod.mk.injEq] at hf
    rw [← hf.1]; exact h
  | cons b bs ih =>
    intro s s' rs h hf
    rw [feed_cons] at hf
    rcases sameView_step s s b h with ⟨h1, _⟩ | ⟨t1, t2, r, h1, h2, ht⟩
    · rw [h1] at hf; simp at hf
    · have e : t1 = t2 := by
        have := h1.symm.trans h2
        simp only [Option.some.injEq, Prod.mk.injEq, and_true] at this
        exact this
      subst e
      rw [h1] at hf
      simp only [Option.some_bind] at hf
      cases hx : feed t1 bs with
      | none => rw [hx] at hf; simp at hf
      | some q =>
        obtain ⟨s2, r2⟩ := q
        rw [hx] at hf
        simp only [Option.map_some', Option.some.injEq, Prod.mk.injEq] at hf
        rw [← hf.1]
        exact ih t1 s2 r2 ht hx

theorem sameView_new (mem : List Nat) (hm : mem.length = 20) : sameView (new mem) (new mem) := by
  refine ⟨rfl, rfl, hm, hm, rfl, fun _ => rfl, fun _ => rfl, fun _ => ⟨Or.inl rfl, Or.inl rfl⟩⟩

/-! ## The invariant of the framer -/

theorem getD_lt_of_isBytes (l : List Nat) (i : Nat) (h : isBytes l) : l.getD i 0 < 256 := by
  rw [List.getD_eq_getElem?_getD]
  cases hv : l[i]? with
  | none => simp
  | some v => exact h v (List.getElem?_mem hv)

theorem getD_set_self (l : List Nat) (n v : Nat) (h : n < l.length) :
    (l.set n v).getD n 0 = v := by
  rw [List.getD_eq_getElem?_getD, List.getElem?_set_self h]
  rfl

theorem fletcher16_reset_pos (a b : Nat) (x : List Nat) :
    1 ≤ (fletcher16 a b x true).1 := by
  have hlt := fletcherLoop_lt 0 0 x (by decide) (by decide)
  have r := remap_mod _ hlt.1
  simp only [fletcher16, Bool.not_true, Bool.false_eq_true, if_false]
  omega

theorem verifyPacket_true (s : State) (h : verifyPacket s = some true) :
    2 ≤ s.packet_length ∧ s.packet_length ≤ 20 ∧
    fletcher16 0 0 (s.buf.take (s.packet_length - 2)) true
      = (s.buf.getD (s.packet_length - 2) 0, s.buf.getD (s.packet_length - 1) 0) := by
  unfold verifyPacket at h
  simp only [checksum_length, SERIAL_PROTO_BUFFER_SIZE] at h
  by_cases hr : 2 ≤ s.packet_length ∧ s.packet_length ≤ 20
  · rw [if_pos hr] at h
    refine ⟨hr.1, hr.2, ?_⟩
    by_cases hc : ((fletcher16 0 0 (s.buf.take (s.packet_length - 2)) true).1
        == s.buf.getD (s.packet_length - 2) 0 &&
        (fletcher16 0 0 (s.buf.take (s.packet_length - 2)) true).2
        == s.buf.getD (s.packet_length - 1) 0) = true
    · simp only [Bool.and_eq_true, beq_iff_eq] at hc
      exact Prod.ext hc.1 hc.2
    · simp only [hc, if_false] at h
      simp at h
  · rw [if_neg hr] at h
    simp at h

theorem headerHeld_step (s t : State) (b : Nat) (r : Bool) (h : headerHeld s)
    (hstep : readOneByteAndVerify s b = some (t, r)) :
    headerHeld t ∧ (r = true → holdsVerifiedPacket t) := by
  obtain ⟨pt, pl, pos, seen, buf⟩ := s
  obtain ⟨hl, hbytes, hzero, hhdr, hst⟩ := h
  simp only at hl hbytes hzero hhdr hst
  have hb : b % 256 < 256 := Nat.mod_lt _ (by decide)
  cases seen with
  | false =>
    have hp0 := hzero rfl
    subst hp0
    rw [read_search _ b rfl] at hstep
    simp only [Option.some.injEq, Prod.mk.injEq] at hstep
    obtain ⟨ht, hr⟩ := hstep
    subst ht hr
    refine ⟨?_, by simp⟩
    by_cases hb' : b % 256 = preamble_byte
    · simp only [hb', if_true]
      exact ⟨hl, hbytes, by simp, by simp, fun _ => hst (by simp)⟩
    · simp only [hb', if_false]
      exact ⟨hl, hbytes, by simp, by simp, fun _ => hst (by simp)⟩
  | true =>
    by_cases hlt : pos < 20
    · have hbset : isBytes (buf.set pos (b % 256)) := isBytes_set buf pos _ hbytes hb
      by_cases h5 : pos = 5
      · -- the sixth header byte
        subst h5
        have hst' := hst (by simp)
        have y0 := getD_lt_of_isBytes buf 0 hbytes
        have y1 := getD_lt_of_isBytes buf 1 hbytes
        have y2 := getD_lt_of_isBytes buf 2 hbytes
        have y3 := getD_lt_of_isBytes buf 3 hbytes
        have y4 := getD_lt_of_isBytes buf 4 hbytes
        rw [read_mod _ b, read_header_at _ (b % 256) rfl rfl hl hb] at hstep
        simp only at hstep
        rw [be16_eq _ _ y0 y1, be16_eq _ _ y2 y3, be16_eq _ _ y4 hb] at hstep
        have hnot : not16 (256 * buf.getD 4 0 + b % 256) = 65535 - (256 * buf.getD 4 0 + b % 256) := by
          unfold not16; omega
        rw [hnot] at hstep
        have e0 := getD_set_ne buf 5 0 (b % 256) (by decide)
        have e1 := getD_set_ne buf 5 1 (b % 256) (by decide)
        have e2 := getD_set_ne buf 5 2 (b % 256) (by decide)
        have e3 := getD_set_ne buf 5 3 (b % 256) (by decide)
        have e4 := getD_set_ne buf 5 4 (b % 256) (by decide)
        have e5 := getD_set_self buf 5 (b % 256) (by omega)
        by_cases hc : 256 * buf.getD 2 0 + buf.getD 3 0 = 65535 - (256 * buf.getD 4 0 + b % 256)
        · rw [if_neg (not_not.mpr hc)] at hstep
          by_cases hbig : (6 + (256 * buf.getD 2 0 + buf.getD 3 0) + 2) % 65536 > 20
          · rw [if_pos hbig] at hstep
            simp only [Option.some.injEq, Prod.mk.injEq] at hstep
            obtain ⟨ht, hr⟩ := hstep
            subst ht hr
            refine ⟨⟨by simpa using hl, hbset, by simp, by simp, fun _ => ?_⟩, by simp⟩
            simp only
            omega
          · rw [if_neg hbig] at hstep
            simp only [Option.some.injEq, Prod.mk.injEq] at hstep
            obtain ⟨ht, hr⟩ := hstep
            subst ht hr
            refine ⟨⟨by simpa using hl, hbset, by simp, fun _ => ?_, by simp⟩, by simp⟩
            simp only [e0, e1, e2, e3, e4, e5]
            exact ⟨hc, trivial, by omega, trivial⟩
        · rw [if_pos hc] at hstep
          simp only [Option.some.injEq, Prod.mk.injEq] at hstep
          obtain ⟨ht, hr⟩ := hstep
          subst ht hr
          exact ⟨⟨by simpa using hl, hbset, by simp, by simp, fun _ => hst'⟩, by simp⟩
      · -- any other stored byte
        rw [read_plain_at _ b rfl hlt h5] at hstep
        simp only at hstep
        by_cases h6 : 6 ≤ pos
        · obtain ⟨hL, hpl, hple, hpt⟩ := hhdr ⟨rfl, h6⟩
          have e0 := getD_set_ne buf pos 0 (b % 256) (by omega)
          have e1 := getD_set_ne buf pos 1 (b % 256) (by omega)
          have e2 := getD_set_ne buf pos 2 (b % 256) (by omega)
          have e3 := getD_set_ne buf pos 3 (b % 256) (by omega)
          have e4 := getD_set_ne buf pos 4 (b % 256) (by omega)
          have e5 := getD_set_ne buf pos 5 (b % 256) (by omega)
          have keep : 256 * (buf.set pos (b % 256)).getD 2 0 + (buf.set pos (b % 256)).getD 3 0
                = 65535 - (256 * (buf.set pos (b % 256)).getD 4 0
                    + (buf.set pos (b % 256)).getD 5 0) ∧
              pl = (6 + (256 * (buf.set pos (b % 256)).getD 2 0
                    + (buf.set pos (b % 256)).getD 3 0) + 2) % 65536 ∧
              pl ≤ 20 ∧
              pt = 256 * (buf.set pos (b % 256)).getD 0 0 + (buf.set pos (b % 256)).getD 1 0 := by
            rw [e0, e1, e2, e3, e4, e5]
            exact ⟨hL, hpl, hple, hpt⟩
          by_cases hv : pos + 1 = pl
          · rw [if_pos hv] at hstep
            cases hver : verifyPacket
                { packet_type := pt
                  packet_length := pl
                  buffer_position := pos + 1
                  seen_preamble := true
                  buf := buf.set pos (b % 256) } with
            | none => rw [hver] at hstep; simp at hstep
            | some ok =>
              rw [hver] at hstep
              cases ok with
              | false =>
                simp only [Bool.false_eq_true, if_false, Option.some.injEq, Prod.mk.injEq] at hstep
                obtain ⟨ht, hr⟩ := hstep
                subst ht hr
                refine ⟨⟨by simpa using hl, hbset, by simp, by simp, fun _ => ?_⟩, by simp⟩
                simp only
                omega
              | true =>
                simp only [if_true, Option.some.injEq, Prod.mk.injEq] at hstep
                obtain ⟨ht, hr⟩ := hstep
                subst ht hr
                have hvt := verifyPacket_true _ hver
                simp only at hvt
                refine ⟨⟨by simpa using hl, hbset, by simp, fun _ => keep, by simp; omega⟩,
                  fun _ => ?_⟩
                refine ⟨hv, ?_, keep.2.2.1, keep.1, keep.2.2.2, hvt.2.2⟩
                simp only
                -- the 16-bit sum has not wrapped: a wrap gives `packet_length = 7` with a
                -- zero byte at `buf[5]`, which no first checksum byte equals
                by_cases hwrap : 6 + (256 * buf.getD 2 0 + buf.getD 3 0) + 2 < 65536
                · rw [e2, e3]; omega
                · exfalso
                  have y2 := getD_lt_of_isBytes buf 2 hbytes
                  have y3 := getD_lt_of_isBytes buf 3 hbytes
                  have hpl7 : pl = 7 := by omega
                  have hpos6 : pos = 6 := by omega
                  have hz : buf.getD 5 0 = 0 := by omega
                  have hc1 := congrArg Prod.fst hvt.2.2
                  simp only at hc1
                  rw [hpl7] at hc1
                  have hg : (buf.set pos (b % 256)).getD (7 - 2) 0 = 0 := by
                    rw [show 7 - 2 = 5 from rfl, e5, hz]
                  rw [hg] at hc1
                  have := fletcher16_reset_pos 0 0 ((buf.set pos (b % 256)).take (7 - 2))
                  omega
          · rw [if_neg hv] at hstep
            simp only [Option.some.injEq, Prod.mk.injEq] at hstep
            obtain ⟨ht, hr⟩ := hstep
            subst ht hr
            exact ⟨⟨by simpa using hl, hbset, by simp, fun _ => keep, by simp; omega⟩, by simp⟩
        · have hst' := hst (by simp; omega)
          rw [if_neg (by omega)] at hstep
          simp only [Option.some.injEq, Prod.mk.injEq] at hstep
          obtain ⟨ht, hr⟩ := hstep
          subst ht hr
          refine ⟨⟨by simpa using hl, hbset, by simp, ?_, fun _ => hst'⟩, by simp⟩
          simp only
          intro hh
          omega
    · rw [read_overrun _ b rfl (by simpa using hlt)] at hstep
      simp at hstep

theorem headerHeld_feed (bs : List Nat) :
    ∀ (s s' : State) (rs : List Bool), headerHeld s → feed s bs = some (s', rs) →
      headerHeld s' := by
  induction bs with
  | nil =>
    intro s s' rs h hf
    simp only [feed, Option.some.injEq, Prod.mk.injEq] at hf
    rw [← hf.1]; exact h
  | cons b bs ih =>
    intro s s' rs h hf
    rw [feed_cons] at hf
    cases hb : readOneByteAndVerify s b with
    | none => rw [hb] at hf; simp at hf
    | some q =>
      obtain ⟨t, r⟩ := q
      rw [hb] at hf
      simp only [Option.some_bind] at hf
      cases hx : feed t bs with
      | none => rw [hx] at hf; simp at hf
      | some q2 =>
        obtain ⟨s2, r2⟩ := q2
        rw [hx] at hf
        simp only [Option.map_some', Option.some.injEq, Prod.mk.injEq] at hf
        rw [← hf.1]
        exact ih t s2 r2 (headerHeld_step s t b r h hb).1 hx

theorem headerHeld_new (mem : List Nat) (hm : mem.length = 20) (hb : isBytes mem) :
    headerHeld (new mem) :=
  ⟨hm, hb, fun _ => rfl, fun h => by simp [new] at h, fun _ => Or.inl rfl⟩

/-! ## The claims -/

/-- C1. Round trip: the bytes that `writePacket` emits for a 16-bit type `t` and a
payload `p` of at most 12 bytes, fed one by one to a freshly constructed framer,
give `false` for every byte but the last and `true` for the last; afterwards
`packet_type` is `t` and `buf[6 .. 6 + length p)` is `p`. -/
theorem roundtrip_write_then_read (t : Nat) (p mem : List Nat) (ht : t < 65536)
    (hp : isBytes p) (hn : p.length ≤ 12) (hm : mem.length = 20) :
    ∃ s : State,
      feed (new mem) (writePacket t p p.length).1
        = some (s, List.replicate ((writePacket t p p.length).1.length - 1) false ++ [true]) ∧
      s.packet_type = t ∧ (s.buf.drop 6).take p.length = p := by
  refine ⟨delivered t p mem, ?_, rfl, delivered_payload t p mem⟩
  rw [feed_packet (new mem) t p rfl rfl hm (Or.inl rfl) ht hp hn]
  rw [writePacket_eq t p ht (by omega) hp]
  simp [headerBytes, new]
  omega

theorem roundtrip_write_then_read_witness :
    ∃ s : State,
      feed (new (List.replicate 20 0)) (writePacket 0x1234 [1, 2, 3] [1, 2, 3].length).1
        = some (s, List.replicate
            ((writePacket 0x1234 [1, 2, 3] [1, 2, 3].length).1.length - 1) false ++ [true]) ∧
      s.packet_type = 0x1234 ∧ (s.buf.drop 6).take [1, 2, 3].length = [1, 2, 3] :=
  roundtrip_write_then_read 0x1234 [1, 2, 3] (List.replicate 20 0) (by decide) (by decide)
    (by decide) (by decide)

/-- C2. Wire layout of the writer: for a 16-bit type `t` and a payload `p` of `n`
bytes, `n < 65536`, `writePacket` emits `0xAA`, the six header bytes
`t>>8, t&0xFF, n>>8, n&0xFF, (~(n>>8))&0xFF, (~n)&0xFF`, then `p`, then the two
bytes of the reset-mode `fletcher16` of header and payload, and returns `true`;
the last two header bytes read big-endian are the 16-bit complement of `n`. -/
theorem writePacket_layout (t : Nat) (p : List Nat) (ht : t < 65536) (hn : p.length < 65536)
    (hp : isBytes p) :
    writePacket t p p.length =
      ([0xAA] ++ layoutHeader t p.length ++ p ++
        [(fletcher16 0 0 (layoutHeader t p.length ++ p) true).1,
         (fletcher16 0 0 (layoutHeader t p.length ++ p) true).2], true) ∧
    be16 ((layoutHeader t p.length).getD 4 0) ((layoutHeader t p.length).getD 5 0)
      = not16 p.length := by
  rw [layoutHeader_eq t p.length hn]
  refine ⟨?_, ?_⟩
  · rw [writePacket_eq t p ht hn hp]; simp
  · simp only [headerBytes, List.getD_eq_getElem?_getD, List.getElem?_cons_succ,
      List.getElem?_cons_zero, Option.getD_some]
    rw [be16_eq _ _ (by omega) (by omega)]
    unfold not16; omega

theorem writePacket_layout_witness :
    writePacket 0x1234 [1, 2, 3] 3 =
      ([0xAA, 0x12, 0x34, 0x00, 0x03, 0xFF, 0xFC, 0x01, 0x02, 0x03,
        (fletcher16 0 0 [0x12, 0x34, 0x00, 0x03, 0xFF, 0xFC, 0x01, 0x02, 0x03] true).1,
        (fletcher16 0 0 [0x12, 0x34, 0x00, 0x03, 0xFF, 0xFC, 0x01, 0x02, 0x03] true).2], true) ∧
    be16 0xFF 0xFC = not16 3 :=
  writePacket_layout 0x1234 [1, 2, 3] (by decide) (by decide) (by decide)

/-- C3. Checksum streaming law: `fletcher16` in reset mode over `x`, then in
continue mode over `y` seeded with the two bytes just produced, gives the two
bytes of one reset-mode `fletcher16` over `x ++ y`; the values behind the
out-pointers before a reset-mode call do not matter. -/
theorem fletcher16_streaming (a0 b0 a1 b1 : Nat) (x y : List Nat) (hy : isBytes y) :
    fletcher16 (fletcher16 a0 b0 x true).1 (fletcher16 a0 b0 x true).2 y false
      = fletcher16 a1 b1 (x ++ y) true :=
  fletcher16_continue a0 b0 a1 b1 x y hy

theorem fletcher16_streaming_witness :
    fletcher16 (fletcher16 0 0 [255, 0] true).1 (fletcher16 0 0 [255, 0] true).2 [1, 2] false
      = fletcher16 0 0 ([255, 0] ++ [1, 2]) true :=
  fletcher16_streaming 0 0 0 0 [255, 0] [1, 2] (by decide)

/-- C4. The receive buffer is overrun.  The packet `AA 12 34 00 03 FF FC 01 02 03 4C 54`
is delivered at its last byte with `buffer_position = packet_length = 11`; the
success branch does not reset the framer, so the nine bytes that follow are stored
at `buf[11 .. 19]` with `buffer_position` beyond `packet_length`, and the tenth is
stored at index 20, outside the buffer.  A header with length field `0xFFF8` is
accepted with `packet_length = 0`, and the fifteenth byte after it is stored at
index 20 as well. -/
theorem store_beyond_buffer :
    feed (new (List.replicate 20 0)) ((writePacket 0x1234 [1, 2, 3] 3).1 ++ List.replicate 9 0)
      = some ({ packet_type := 0x1234, packet_length := 11, buffer_position := 20,
                seen_preamble := true,
                buf := [0x12, 0x34, 0, 3, 0xFF, 0xFC, 1, 2, 3, 0x4C, 0x54,
                        0, 0, 0, 0, 0, 0, 0, 0, 0] },
              List.replicate 11 false ++ [true] ++ List.replicate 9 false) ∧
    feed (new (List.replicate 20 0)) ((writePacket 0x1234 [1, 2, 3] 3).1 ++ List.replicate 10 0)
      = none ∧
    feed (new (List.replicate 20 0)) ([0xAA, 0, 0, 0xFF, 0xF8, 0, 7] ++ List.replicate 15 0)
      = none := by
  decide

/-- C5. An oversized packet that is not rejected.  The header `00 00 FF F8 00 07`
has length field `L = 0xFFF8` and complement field `0x0007`, and `6 + L + 2`
exceeds 20; the 16-bit `packet_length` wraps to 0, so the sixth header byte leaves
`seen_preamble = true` and `buffer_position = 6`, and the fourteen body bytes that
follow are all buffered. -/
theorem wrapped_length_not_rejected :
    feed (new (List.replicate 20 0)) [0xAA, 0, 0, 0xFF, 0xF8, 0, 7]
      = some ({ packet_type := 0, packet_length := 0, buffer_position := 6,
                seen_preamble := true,
                buf := [0, 0, 0xFF, 0xF8, 0, 7, 0, 0, 0, 0, 0, 0, 0, 0, 0, 0, 0, 0, 0, 0] },
              List.replicate 7 false) ∧
    feed (new (List.replicate 20 0))
        ([0xAA, 0, 0, 0xFF, 0xF8, 0, 7] ++ [1, 2, 3, 4, 5, 6, 7, 8, 9, 10, 11, 12, 13, 14])
      = some ({ packet_type := 0, packet_length := 0, buffer_position := 20,
                seen_preamble := true,
                buf := [0, 0, 0xFF, 0xF8, 0, 7, 1, 2, 3, 4, 5, 6, 7, 8, 9, 10, 11, 12, 13, 14] },
              List.replicate 21 false) := by
  decide

/-- C6. The framer does not deliver a second packet.  Two copies of the packet
`AA 12 34 00 00 FF FF 46 71` fed to a fresh framer give `true` once, at the last
byte of the first copy; the framer is not reset, and the nine bytes of the second
copy, preamble included, are stored at `buf[8 .. 16]` and give `false`. -/
theorem second_packet_not_delivered :
    (writePacket 0x1234 [] 0).1 = [0xAA, 0x12, 0x34, 0, 0, 0xFF, 0xFF, 0x46, 0x71] ∧
    feed (new (List.replicate 20 0)) ((writePacket 0x1234 [] 0).1 ++ (writePacket 0x1234 [] 0).1)
      = some ({ packet_type := 0x1234, packet_length := 8, buffer_position := 17,
                seen_preamble := true,
                buf := [0x12, 0x34, 0, 0, 0xFF, 0xFF, 0x46, 0x71,
                        0xAA, 0x12, 0x34, 0, 0, 0xFF, 0xFF, 0x46, 0x71, 0, 0, 0] },
              List.replicate 8 false ++ [true] ++ List.replicate 9 false) := by
  decide

/-- C10. Length-redundancy check: in a state with the preamble seen and five
header bytes buffered, let `L` be the big-endian length field and `C` the
big-endian complement field completed by the sixth byte `b`.  If `L` differs from
the 16-bit complement of `C`, `readOneByteAndVerify` stores the byte, sets
`seen_preamble = false` and `buffer_position = 0`, leaves the other members alone
and returns `false`.  If `L` equals it, the length check does not reset: the type
and `packet_length = (6 + L + 2) mod 65536` are taken from the header, and the
framer stays at `buffer_position = 6` with the preamble seen unless that
`packet_length` exceeds 20. -/
theorem length_redundancy_check (s : State) (b : Nat) (hs : s.seen_preamble = true)
    (hp : s.buffer_position = 5) (hm : s.buf.length = 20) (hbuf : isBytes s.buf)
    (hb : b < 256) :
    (256 * s.buf.getD 2 0 + s.buf.getD 3 0 ≠ 65535 - (256 * s.buf.getD 4 0 + b) →
      readOneByteAndVerify s b
        = some ({ s with buf := s.buf.set 5 b, seen_preamble := false,
                         buffer_position := 0 }, false)) ∧
    (256 * s.buf.getD 2 0 + s.buf.getD 3 0 = 65535 - (256 * s.buf.getD 4 0 + b) →
      readOneByteAndVerify s b
        = some ({ s with
            buf := s.buf.set 5 b,
            packet_type := 256 * s.buf.getD 0 0 + s.buf.getD 1 0,
            packet_length := (6 + (256 * s.buf.getD 2 0 + s.buf.getD 3 0) + 2) % 65536,
            seen_preamble :=
              decide ((6 + (256 * s.buf.getD 2 0 + s.buf.getD 3 0) + 2) % 65536 ≤ 20),
            buffer_position :=
              if (6 + (256 * s.buf.getD 2 0 + s.buf.getD 3 0) + 2) % 65536 ≤ 20 then 6
              else 0 }, false)) := by
  have byte : ∀ i, s.buf.getD i 0 < 256 := by
    intro i
    rw [List.getD_eq_getElem?_getD]
    cases h : s.buf[i]? with
    | none => simp
    | some v => exact hbuf v (List.getElem?_mem h)
  have hform := receiving_five s hs hp hm
  have hbuf6 : s.buf.set 5 b =
      [s.buf.getD 0 0, s.buf.getD 1 0, s.buf.getD 2 0, s.buf.getD 3 0, s.buf.getD 4 0, b]
        ++ s.buf.drop 6 := by
    have h := receiving_snoc_buf
      [s.buf.getD 0 0, s.buf.getD 1 0, s.buf.getD 2 0, s.buf.getD 3 0, s.buf.getD 4 0] s.buf b
      (by simp [hm])
    have hb5 := congrArg State.buf hform
    simp only [receiving] at hb5
    rw [← hb5] at h
    simpa using h
  have hd := read_header s.packet_type s.packet_length (s.buf.getD 0 0) (s.buf.getD 1 0)
    (s.buf.getD 2 0) (s.buf.getD 3 0) (s.buf.getD 4 0) b s.buf hm hb
  rw [← hform, be16_eq _ _ (byte 0) (byte 1), be16_eq _ _ (byte 2) (byte 3),
    be16_eq _ _ (byte 4) hb] at hd
  have hnot : not16 (256 * s.buf.getD 4 0 + b) = 65535 - (256 * s.buf.getD 4 0 + b) := by
    have := byte 4
    unfold not16; omega
  rw [hnot] at hd
  refine ⟨fun hne => ?_, fun heq => ?_⟩
  · rw [hd, if_pos hne, hbuf6]
    simp [resync, receiving]
  · rw [hd, if_neg (not_not.mpr heq), hbuf6]
    by_cases hbig : (6 + (256 * s.buf.getD 2 0 + s.buf.getD 3 0) + 2) % 65536 > 20
    · rw [if_pos hbig]
      have hle : ¬ (6 + (256 * s.buf.getD 2 0 + s.buf.getD 3 0) + 2) % 65536 ≤ 20 := by omega
      simp only [resync, receiving, if_neg hle, decide_eq_false hle]
      simp
    · rw [if_neg hbig]
      have hle : (6 + (256 * s.buf.getD 2 0 + s.buf.getD 3 0) + 2) % 65536 ≤ 20 := by omega
      simp only [receiving, if_pos hle, decide_eq_true hle]
      simp

theorem length_redundancy_check_witness :
    readOneByteAndVerify
        { packet_type := 0, packet_length := 0, buffer_position := 5, seen_preamble := true,
          buf := [0x12, 0x34, 0, 2, 0xFF, 0, 0, 0, 0, 0, 0, 0, 0, 0, 0, 0, 0, 0, 0, 0] } 0xFC
      = some ({ packet_type := 0, packet_length := 0, buffer_position := 0,
                seen_preamble := false,
                buf := [0x12, 0x34, 0, 2, 0xFF, 0xFC, 0, 0, 0, 0, 0, 0, 0, 0, 0, 0, 0, 0, 0, 0] },
              false) ∧
    readOneByteAndVerify
        { packet_type := 0, packet_length := 0, buffer_position := 5, seen_preamble := true,
          buf := [0x12, 0x34, 0, 3, 0xFF, 0, 0, 0, 0, 0, 0, 0, 0, 0, 0, 0, 0, 0, 0, 0] } 0xFC
      = some ({ packet_type := 0x1234, packet_length := 11, buffer_position := 6,
                seen_preamble := true,
                buf := [0x12, 0x34, 0, 3, 0xFF, 0xFC, 0, 0, 0, 0, 0, 0, 0, 0, 0, 0, 0, 0, 0, 0] },
              false) :=
  ⟨(length_redundancy_check
      { packet_type := 0, packet_length := 0, buffer_position := 5, seen_preamble := true,
        buf := [0x12, 0x34, 0, 2, 0xFF, 0, 0, 0, 0, 0, 0, 0, 0, 0, 0, 0, 0, 0, 0, 0] } 0xFC
      rfl rfl rfl (by decide) (by decide)).1 (by decide),
   (length_redundancy_check
      { packet_type := 0, packet_length := 0, buffer_position := 5, seen_preamble := true,
        buf := [0x12, 0x34, 0, 3, 0xFF, 0, 0, 0, 0, 0, 0, 0, 0, 0, 0, 0, 0, 0, 0, 0] } 0xFC
      rfl rfl rfl (by decide) (by decide)).2 (by decide)⟩

/-- C9, as stated, fails: one noise byte `0xAA` before the packet
`AA 00 00 00 00 FF FF FF FF` is taken for the preamble, the packet's own preamble
becomes the first header byte, and no byte of the packet returns `true`. -/
theorem noise_preamble_breaks_framing :
    (writePacket 0 [] 0).1 = [0xAA, 0, 0, 0, 0, 0xFF, 0xFF, 0xFF, 0xFF] ∧
    feed (new (List.replicate 20 0)) ([0xAA] ++ (writePacket 0 [] 0).1)
      = some ({ packet_type := 0, packet_length := 0, buffer_position := 0,
                seen_preamble := false,
                buf := [0xAA, 0, 0, 0, 0, 0xFF, 0, 0, 0, 0, 0, 0, 0, 0, 0, 0, 0, 0, 0, 0] },
              List.replicate 10 false) := by
  decide

/-- C9, amended. Noise tolerance: for every sequence `noise` of bytes none of which
is the preamble value `0xAA`, and every packet written by `writePacket` for a
16-bit type `t` and a payload `p` of at most 12 bytes, feeding `noise` and then the
packet to a freshly constructed framer returns `false` for every byte but the last
and `true` for the last byte of the packet, with `packet_type = t` and
`buf[6 .. 6 + length p) = p` afterwards. -/
theorem noise_without_preamble_tolerated (noise : List Nat) (t : Nat) (p mem : List Nat)
    (hnoise : isBytes noise) (hno : 0xAA ∉ noise) (ht : t < 65536) (hp : isBytes p)
    (hn : p.length ≤ 12) (hm : mem.length = 20) :
    ∃ s : State,
      feed (new mem) (noise ++ (writePacket t p p.length).1)
        = some (s, List.replicate (noise.length + 8 + p.length) false ++ [true]) ∧
      s.packet_type = t ∧ (s.buf.drop 6).take p.length = p := by
  have h1 := feed_search (new mem) noise rfl (fun b hb => by
    have hlt := hnoise b hb
    rw [Nat.mod_eq_of_lt hlt]
    intro h
    exact hno (by rw [show (0xAA : Nat) = b from h.symm]; exact hb))
  have h2 := feed_packet (new mem) t p rfl rfl hm (Or.inl rfl) ht hp hn
  refine ⟨delivered t p mem, ?_, rfl, delivered_payload t p mem⟩
  rw [feed_append_some h1 h2, ← List.append_assoc, ← List.replicate_add, Nat.add_assoc]
  rfl

theorem noise_without_preamble_tolerated_witness :
    ∃ s : State,
      feed (new (List.replicate 20 0)) ([0x55, 0, 0xFF] ++ (writePacket 0x1234 [1, 2, 3] 3).1)
        = some (s, List.replicate (3 + 8 + 3) false ++ [true]) ∧
      s.packet_type = 0x1234 ∧ (s.buf.drop 6).take 3 = [1, 2, 3] :=
  noise_without_preamble_tolerated [0x55, 0, 0xFF] 0x1234 [1, 2, 3] (List.replicate 20 0)
    (by decide) (by decide) (by decide) (by decide) (by decide) (by decide)

/-- C8, as stated, fails: in the packet `AA 00 00 00 01 FF FE AA AA AC` (type 0,
payload `[0xAA]`) bit 0 of the low length byte is flipped.  The framer resets at the
header, takes the payload byte `0xAA` for a preamble, reads the checksum and the
start of the appended packet `AA 00 00 00 00 FF FF FF FF` as a header, and never
returns `true`. -/
theorem length_flip_loses_next_packet :
    flipBit (writePacket 0 [0xAA] 1).1 4 0 = [0xAA, 0, 0, 0, 0, 0xFF, 0xFE, 0xAA, 0xAA, 0xAC] ∧
    (writePacket 0 [] 0).1 = [0xAA, 0, 0, 0, 0, 0xFF, 0xFF, 0xFF, 0xFF] ∧
    feed (new (List.replicate 20 0))
        (flipBit (writePacket 0 [0xAA] 1).1 4 0 ++ (writePacket 0 [] 0).1)
      = some ({ packet_type := 0, packet_length := 0, buffer_position := 0,
                seen_preamble := false,
                buf := [0xAA, 0xAC, 0xAA, 0, 0, 0, 0, 0, 0, 0, 0, 0, 0, 0, 0, 0, 0, 0, 0, 0] },
              List.replicate 19 false) := by
  decide

/-- C8, amended. Length-field corruption and resynchronisation: take the packet
written by `writePacket` for a 16-bit type `t` and a payload `p` of at most 12
bytes, such that neither its payload nor its two checksum bytes hold the preamble
value `0xAA`; flip one bit `k` of one of its two length bytes (index 3 or 4 of the
packet), leave the complement field alone, and append a second valid packet.  A
freshly constructed framer is reset by the sixth header byte of the corrupted
packet, returns `false` on every byte of the corrupted packet and on every byte of
the second packet but the last, and returns `true` on the last byte of the second
packet, whose type and payload it then holds. -/
theorem length_flip_resync (t : Nat) (p : List Nat) (i k t2 : Nat) (p2 mem : List Nat)
    (ht : t < 65536) (hp : isBytes p) (hn : p.length ≤ 12) (hi : i = 3 ∨ i = 4) (hk : k < 8)
    (hclean : 0xAA ∉ (writePacket t p p.length).1.drop 7)
    (ht2 : t2 < 65536) (hp2 : isBytes p2) (hn2 : p2.length ≤ 12) (hm : mem.length = 20) :
    ∃ s1 s2 : State,
      feed (new mem) ((flipBit (writePacket t p p.length).1 i k).take 7)
        = some (s1, List.replicate 7 false) ∧
      s1.seen_preamble = false ∧ s1.buffer_position = 0 ∧
      feed (new mem)
          (flipBit (writePacket t p p.length).1 i k ++ (writePacket t2 p2 p2.length).1)
        = some (s2, List.replicate (9 + p.length + 8 + p2.length) false ++ [true]) ∧
      s2.packet_type = t2 ∧ (s2.buf.drop 6).take p2.length = p2 := by
  have hW := writePacket_cons t p ht (by omega) hp
  have hc := fletcher16_lt 0 0 (headerBytes t p.length ++ p) true
  rw [hW] at hclean ⊢
  simp only [List.drop_succ_cons, List.drop_zero] at hclean
  have btail : isBytes (p ++ [(fletcher16 0 0 (headerBytes t p.length ++ p) true).1,
      (fletcher16 0 0 (headerBytes t p.length ++ p) true).2]) := by
    intro b hb
    rcases List.mem_append.mp hb with h | h
    · exact hp b h
    · simp only [List.mem_cons, List.mem_singleton, List.not_mem_nil, or_false] at h
      rcases h with h | h <;> omega
  have hlen : (p ++ [(fletcher16 0 0 (headerBytes t p.length ++ p) true).1,
      (fletcher16 0 0 (headerBytes t p.length ++ p) true).2]).length = p.length + 2 := by simp
  rcases hi with rfl | rfl
  · have hf := flip_lt (p.length / 256) k (by omega) hk
    have hx := flip_ne (p.length / 256) k
    have core := feed_bad_header_then_packet (t / 256) (t % 256) (p.length / 256 ^^^ 2 ^ k)
      (p.length % 256) (255 - p.length / 256) (255 - p.length % 256) t2 _ p2 mem
      (by
        intro b hb
        simp only [List.mem_cons, List.mem_singleton, List.not_mem_nil, or_false] at hb
        omega)
      (by omega) btail hclean ht2 hp2 hn2 hm
    refine ⟨resync (receiving 0 0 [t / 256, t % 256, p.length / 256 ^^^ 2 ^ k, p.length % 256,
      255 - p.length / 256, 255 - p.length % 256] mem),
      delivered t2 p2 ([t / 256, t % 256, p.length / 256 ^^^ 2 ^ k, p.length % 256,
        255 - p.length / 256, 255 - p.length % 256] ++ mem.drop 6),
      ?_, rfl, rfl, ?_, rfl, delivered_payload t2 p2 _⟩
    · simpa [flipBit] using core.1
    · have h2 := core.2
      rw [hlen] at h2
      have e : 7 + (p.length + 2) + 8 + p2.length = 9 + p.length + 8 + p2.length := by omega
      rw [e] at h2
      simpa [flipBit] using h2
  · have hf := flip_lt (p.length % 256) k (by omega) hk
    have hx := flip_ne (p.length % 256) k
    have core := feed_bad_header_then_packet (t / 256) (t % 256) (p.length / 256)
      (p.length % 256 ^^^ 2 ^ k) (255 - p.length / 256) (255 - p.length % 256) t2 _ p2 mem
      (by
        intro b hb
        simp only [List.mem_cons, List.mem_singleton, List.not_mem_nil, or_false] at hb
        omega)
      (by omega) btail hclean ht2 hp2 hn2 hm
    refine ⟨resync (receiving 0 0 [t / 256, t % 256, p.length / 256, p.length % 256 ^^^ 2 ^ k,
      255 - p.length / 256, 255 - p.length % 256] mem),
      delivered t2 p2 ([t / 256, t % 256, p.length / 256, p.length % 256 ^^^ 2 ^ k,
        255 - p.length / 256, 255 - p.length % 256] ++ mem.drop 6),
      ?_, rfl, rfl, ?_, rfl, delivered_payload t2 p2 _⟩
    · simpa [flipBit] using core.1
    · have h2 := core.2
      rw [hlen] at h2
      have e : 7 + (p.length + 2) + 8 + p2.length = 9 + p.length + 8 + p2.length := by omega
      rw [e] at h2
      simpa [flipBit] using h2

theorem length_flip_resync_witness :
    ∃ s1 s2 : State,
      feed (new (List.replicate 20 0)) ((flipBit (writePacket 0x1234 [1, 2, 3] 3).1 4 3).take 7)
        = some (s1, List.replicate 7 false) ∧
      s1.seen_preamble = false ∧ s1.buffer_position = 0 ∧
      feed (new (List.replicate 20 0))
          (flipBit (writePacket 0x1234 [1, 2, 3] 3).1 4 3 ++ (writePacket 0x4321 [9, 8] 2).1)
        = some (s2, List.replicate (9 + 3 + 8 + 2) false ++ [true]) ∧
      s2.packet_type = 0x4321 ∧ (s2.buf.drop 6).take 2 = [9, 8] :=
  length_flip_resync 0x1234 [1, 2, 3] 4 3 0x4321 [9, 8] (List.replicate 20 0) (by decide)
    (by decide) (by decide) (by decide) (by decide) (by decide) (by decide) (by decide)
    (by decide) (by decide)

/-- C7, as stated, fails: in the packet `AA 00 00 00 01 FF FE 00 FF 02` (type 0,
payload `[0x00]`) the payload byte is changed to `0xFF`.  Both sums are taken
modulo 255, the checksum is unchanged, and the corrupted packet is delivered:
`true` at its last byte. -/
theorem payload_00_to_FF_accepted :
    (writePacket 0 [0] 1).1 = [0xAA, 0, 0, 0, 1, 0xFF, 0xFE, 0, 0xFF, 2] ∧
    feed (new (List.replicate 20 0)) ((writePacket 0 [0] 1).1.set 7 0xFF)
      = some ({ packet_type := 0, packet_length := 9, buffer_position := 9,
                seen_preamble := true,
                buf := [0, 0, 0, 1, 0xFF, 0xFE, 0xFF, 0xFF, 2,
                        0, 0, 0, 0, 0, 0, 0, 0, 0, 0, 0] },
              List.replicate 9 false ++ [true]) := by
  decide

/-- C7, amended. Single-byte corruption: in a packet written by `writePacket` for
a 16-bit type and a payload of at most 12 bytes, change one payload byte to a value
that differs from it modulo 255 (any change but `0x00` to `0xFF` or back), or one
checksum byte to any different value, the header left intact.  A freshly
constructed framer returns `false` on every byte of the corrupted packet, the
verification at its last byte leaves the framer reset (`seen_preamble = false`,
`buffer_position = 0`), and a valid packet fed right afterwards is delivered at its
last byte. -/
theorem single_byte_corruption_detected (t : Nat) (p : List Nat) (i v t2 : Nat)
    (p2 mem : List Nat) (ht : t < 65536) (hp : isBytes p) (hn : p.length ≤ 12)
    (hlo : 7 ≤ i) (hhi : i < 9 + p.length) (hv : v < 256)
    (hdiff : v ≠ (writePacket t p p.length).1.getD i 0)
    (hmod : i < 7 + p.length → v % 255 ≠ (writePacket t p p.length).1.getD i 0 % 255)
    (ht2 : t2 < 65536) (hp2 : isBytes p2) (hn2 : p2.length ≤ 12) (hm : mem.length = 20) :
    ∃ s1 s2 : State,
      feed (new mem) ((writePacket t p p.length).1.set i v)
        = some (s1, List.replicate (9 + p.length) false) ∧
      s1.seen_preamble = false ∧ s1.buffer_position = 0 ∧
      feed s1 (writePacket t2 p2 p2.length).1
        = some (s2, List.replicate (8 + p2.length) false ++ [true]) ∧
      s2.packet_type = t2 ∧ (s2.buf.drop 6).take p2.length = p2 := by
  have hW := writePacket_cons t p ht (by omega) hp
  have hc := fletcher16_lt 0 0 (headerBytes t p.length ++ p) true
  have hh := headerBytes_isBytes t p.length ht (by omega)
  obtain ⟨j, rfl⟩ : ∃ j, i = j + 7 := ⟨i - 7, by omega⟩
  rw [hW] at hdiff hmod ⊢
  simp only [List.set_cons_succ, List.getD_cons_succ] at hdiff hmod ⊢
  rcases Nat.lt_trichotomy j p.length with hj | hj | hj
  · -- a payload byte
    have hget : (p ++ [(fletcher16 0 0 (headerBytes t p.length ++ p) true).1,
        (fletcher16 0 0 (headerBytes t p.length ++ p) true).2]).getD j 0 = p.getD j 0 :=
      List.getD_append _ _ _ _ hj
    rw [hget] at hmod
    have hmod' := hmod (by omega)
    have hsum := sum_set p j v hj
    have hb' := isBytes_set p j v hp hv
    have hbad : fletcher16 0 0 (headerBytes t (p.set j v).length ++ p.set j v) true ≠
        ((fletcher16 0 0 (headerBytes t p.length ++ p) true).1,
         (fletcher16 0 0 (headerBytes t p.length ++ p) true).2) := by
      intro hEq
      have h1 := congrArg Prod.fst hEq
      rw [List.length_set] at h1
      refine fletcher16_fst_ne 0 0 0 0 _ _ ?_ ?_ ?_ h1
      · intro b hb
        rcases List.mem_append.mp hb with h | h
        · exact hh b h
        · exact hb' b h
      · intro b hb
        rcases List.mem_append.mp hb with h | h
        · exact hh b h
        · exact hp b h
      · simp only [List.sum_append]
        omega
    have core := feed_bad_checksum_then_packet t _ _ t2 (p.set j v) p2 mem ht hb'
      (by rw [List.length_set]; exact hn) hc.1 hc.2 hbad ht2 hp2 hn2 hm
    rw [List.length_set] at core
    rw [List.set_append_left j v hj]
    exact core
  · -- the first checksum byte
    subst hj
    have hget : (p ++ [(fletcher16 0 0 (headerBytes t p.length ++ p) true).1,
        (fletcher16 0 0 (headerBytes t p.length ++ p) true).2]).getD p.length 0
        = (fletcher16 0 0 (headerBytes t p.length ++ p) true).1 := by
      rw [List.getD_append_right _ _ _ _ (Nat.le_refl _)]; simp
    rw [hget] at hdiff
    have hbad : fletcher16 0 0 (headerBytes t p.length ++ p) true ≠
        (v, (fletcher16 0 0 (headerBytes t p.length ++ p) true).2) := by
      intro hEq
      exact hdiff (congrArg Prod.fst hEq).symm
    have core := feed_bad_checksum_then_packet t _ _ t2 p p2 mem ht hp hn hv hc.2 hbad ht2 hp2
      hn2 hm
    rw [List.set_append_right _ _ (Nat.le_refl _), Nat.sub_self, List.set_cons_zero]
    exact core
  · -- the second checksum byte
    have hj' : j = p.length + 1 := by omega
    subst hj'
    have hget : (p ++ [(fletcher16 0 0 (headerBytes t p.length ++ p) true).1,
        (fletcher16 0 0 (headerBytes t p.length ++ p) true).2]).getD (p.length + 1) 0
        = (fletcher16 0 0 (headerBytes t p.length ++ p) true).2 := by
      rw [List.getD_append_right _ _ _ _ (by omega)]; simp
    rw [hget] at hdiff
    have hbad : fletcher16 0 0 (headerBytes t p.length ++ p) true ≠
        ((fletcher16 0 0 (headerBytes t p.length ++ p) true).1, v) := by
      intro hEq
      exact hdiff (congrArg Prod.snd hEq).symm
    have core := feed_bad_checksum_then_packet t _ _ t2 p p2 mem ht hp hn hc.1 hv hbad ht2 hp2
      hn2 hm
    rw [List.set_append_right _ _ (by omega), Nat.add_sub_cancel_left, List.set_cons_succ,
      List.set_cons_zero]
    exact core

theorem single_byte_corruption_detected_witness :
    ∃ s1 s2 : State,
      feed (new (List.replicate 20 0)) ((writePacket 0x1234 [1, 2, 3] [1, 2, 3].length).1.set 8 0x7F)
        = some (s1, List.replicate (9 + [1, 2, 3].length) false) ∧
      s1.seen_preamble = false ∧ s1.buffer_position = 0 ∧
      feed s1 (writePacket 0x4321 [9, 8] [9, 8].length).1
        = some (s2, List.replicate (8 + [9, 8].length) false ++ [true]) ∧
      s2.packet_type = 0x4321 ∧ (s2.buf.drop 6).take [9, 8].length = [9, 8] :=
  single_byte_corruption_detected 0x1234 [1, 2, 3] 8 0x7F 0x4321 [9, 8] (List.replicate 20 0)
    (by decide) (by decide) (by decide) (by decide) (by decide) (by decide) (by decide)
    (by decide) (by decide) (by decide) (by decide) (by decide)

/-- C13. Checksum output range: in reset mode, and in continue mode from any two
seed bytes, each of the two bytes produced by `fletcher16` lies between 1 and 255;
neither is ever 0. -/
theorem fletcher16_output_range (checkA checkB : Nat) (data : List Nat) (reset : Bool)
    (ha : checkA ≤ 255) (hb : checkB ≤ 255) :
    1 ≤ (fletcher16 checkA checkB data reset).1 ∧ (fletcher16 checkA checkB data reset).1 ≤ 255 ∧
    1 ≤ (fletcher16 checkA checkB data reset).2 ∧ (fletcher16 checkA checkB data reset).2 ≤ 255 := by
  have key : ∀ a b : Nat, a ≤ 255 → b ≤ 255 →
      1 ≤ (if ((fletcherLoop a b data).1 == 0) = true then 0xFF else (fletcherLoop a b data).1) % 256 ∧
      (if ((fletcherLoop a b data).1 == 0) = true then 0xFF else (fletcherLoop a b data).1) % 256 ≤ 255 ∧
      1 ≤ (if ((fletcherLoop a b data).2 == 0) = true then 0xFF else (fletcherLoop a b data).2) % 256 ∧
      (if ((fletcherLoop a b data).2 == 0) = true then 0xFF else (fletcherLoop a b data).2) % 256 ≤ 255 := by
    intro a b ha' hb'
    have h := fletcherLoop_le a b data ha' hb'
    refine ⟨?_, ?_, ?_, ?_⟩
    · by_cases h0 : (fletcherLoop a b data).1 = 0
      · simp [h0]
      · have : ((fletcherLoop a b data).1 == 0) = false := by simpa using h0
        simp only [this]; simp; omega
    · omega
    · by_cases h0 : (fletcherLoop a b data).2 = 0
      · simp [h0]
      · have : ((fletcherLoop a b data).2 == 0) = false := by simpa using h0
        simp only [this]; simp; omega
    · omega
  cases reset with
  | true => exact key 0 0 (by decide) (by decide)
  | false => exact key checkA checkB ha hb

theorem fletcher16_output_range_witness :
    1 ≤ (fletcher16 0 255 [255, 0, 255] false).1 ∧ (fletcher16 0 255 [255, 0, 255] false).1 ≤ 255 ∧
    1 ≤ (fletcher16 0 255 [255, 0, 255] false).2 ∧ (fletcher16 0 255 [255, 0, 255] false).2 ≤ 255 :=
  fletcher16_output_range 0 255 [255, 0, 255] false (by decide) (by decide)

/-- C14. Preamble search step: in a state with `seen_preamble = false`,
`readOneByteAndVerify` returns `false` for every input byte; a byte other than
`0xAA` leaves the whole state unchanged, and the byte `0xAA` changes
`seen_preamble` to `true` and nothing else, the byte not being stored in `buf`. -/
theorem preamble_search_step (s : State) (b : Nat) (hs : s.seen_preamble = false)
    (hb : b < 256) :
    (b ≠ 0xAA → readOneByteAndVerify s b = some (s, false)) ∧
    (b = 0xAA → readOneByteAndVerify s b
      = some ({ packet_type := s.packet_type, packet_length := s.packet_length,
                buffer_position := s.buffer_position, seen_preamble := true,
                buf := s.buf }, false)) := by
  have h := read_search s b hs
  rw [Nat.mod_eq_of_lt hb] at h
  refine ⟨fun hne => ?_, fun heq => ?_⟩
  · have hne' : ¬ b = preamble_byte := hne
    rw [h, if_neg hne']
  · have heq' : b = preamble_byte := heq
    rw [h, if_pos heq']

theorem preamble_search_step_witness :
    readOneByteAndVerify
        { packet_type := 7, packet_length := 11, buffer_position := 0, seen_preamble := false,
          buf := [1, 2, 3, 4, 5, 6, 7, 8, 9, 10, 11, 12, 13, 14, 15, 16, 17, 18, 19, 20] } 0x55
      = some ({ packet_type := 7, packet_length := 11, buffer_position := 0,
                seen_preamble := false,
                buf := [1, 2, 3, 4, 5, 6, 7, 8, 9, 10, 11, 12, 13, 14, 15, 16, 17, 18, 19, 20] },
              false) ∧
    readOneByteAndVerify
        { packet_type := 7, packet_length := 11, buffer_position := 0, seen_preamble := false,
          buf := [1, 2, 3, 4, 5, 6, 7, 8, 9, 10, 11, 12, 13, 14, 15, 16, 17, 18, 19, 20] } 0xAA
      = some ({ packet_type := 7, packet_length := 11, buffer_position := 0,
                seen_preamble := true,
                buf := [1, 2, 3, 4, 5, 6, 7, 8, 9, 10, 11, 12, 13, 14, 15, 16, 17, 18, 19, 20] },
              false) :=
  ⟨(preamble_search_step
      { packet_type := 7, packet_length := 11, buffer_position := 0, seen_preamble := false,
        buf := [1, 2, 3, 4, 5, 6, 7, 8, 9, 10, 11, 12, 13, 14, 15, 16, 17, 18, 19, 20] } 0x55
      rfl (by decide)).1 (by decide),
   (preamble_search_step
      { packet_type := 7, packet_length := 11, buffer_position := 0, seen_preamble := false,
        buf := [1, 2, 3, 4, 5, 6, 7, 8, 9, 10, 11, 12, 13, 14, 15, 16, 17, 18, 19, 20] } 0xAA
      rfl (by decide)).2 rfl⟩

/-- C15. Empty checksum: `fletcher16` in reset mode over the empty byte sequence
yields `(255, 255)`, whatever the out-parameters held before. -/
theorem fletcher16_empty (checkA checkB : Nat) : fletcher16 checkA checkB [] true = (255, 255) := by
  rfl

/-- C16. Header acceptance: in a state with the preamble seen and five header bytes
buffered, let the sixth byte `b` complete a header whose length field `L` equals
the 16-bit complement of its complement field, with `6 + L + 2 ≤ 20`.  Then
`readOneByteAndVerify` returns `false`, stores `b` at `buf[5]` behind the five
bytes already there, and leaves `seen_preamble = true`, `buffer_position = 6`,
`packet_type = (buf[0] << 8) | buf[1]` and `packet_length = 6 + L + 2`. -/
theorem header_acceptance (s : State) (b : Nat) (hs : s.seen_preamble = true)
    (hp : s.buffer_position = 5) (hm : s.buf.length = 20) (hb : b < 256)
    (hL : be16 (s.buf.getD 2 0) (s.buf.getD 3 0) = not16 (be16 (s.buf.getD 4 0) b))
    (hfit : 6 + be16 (s.buf.getD 2 0) (s.buf.getD 3 0) + 2 ≤ 20) :
    readOneByteAndVerify s b
      = some ({ packet_type := be16 (s.buf.getD 0 0) (s.buf.getD 1 0),
                packet_length := 6 + be16 (s.buf.getD 2 0) (s.buf.getD 3 0) + 2,
                buffer_position := 6, seen_preamble := true,
                buf := s.buf.set 5 b }, false) ∧
    (s.buf.set 5 b).take 6 = s.buf.take 5 ++ [b] := by
  have h := read_header_at s b hs hp hm hb
  have e : (6 + be16 (s.buf.getD 2 0) (s.buf.getD 3 0) + 2) % 65536
      = 6 + be16 (s.buf.getD 2 0) (s.buf.getD 3 0) + 2 := by omega
  rw [if_neg (not_not.mpr hL), e, if_neg (by omega)] at h
  refine ⟨?_, ?_⟩
  · rw [h, hs]
  · have hl : (s.buf.take 5 ++ [b]).length = 6 := by simp [hm]
    rw [List.set_eq_take_append_cons_drop, if_pos (by omega),
      show s.buf.take 5 ++ b :: s.buf.drop 6 = (s.buf.take 5 ++ [b]) ++ s.buf.drop 6 by simp]
    exact List.take_left' hl

theorem header_acceptance_witness :
    readOneByteAndVerify
        { packet_type := 0, packet_length := 0, buffer_position := 5, seen_preamble := true,
          buf := [0x12, 0x34, 0, 3, 0xFF, 0, 0, 0, 0, 0, 0, 0, 0, 0, 0, 0, 0, 0, 0, 0] } 0xFC
      = some ({ packet_type := 0x1234, packet_length := 11, buffer_position := 6,
                seen_preamble := true,
                buf := [0x12, 0x34, 0, 3, 0xFF, 0xFC, 0, 0, 0, 0, 0, 0, 0, 0, 0, 0, 0, 0, 0, 0] },
              false) ∧
    [0x12, 0x34, 0, 3, 0xFF, 0xFC] = [0x12, 0x34, 0, 3, 0xFF] ++ [0xFC] :=
  header_acceptance
    { packet_type := 0, packet_length := 0, buffer_position := 5, seen_preamble := true,
      buf := [0x12, 0x34, 0, 3, 0xFF, 0, 0, 0, 0, 0, 0, 0, 0, 0, 0, 0, 0, 0, 0, 0] } 0xFC
    rfl rfl rfl (by decide) (by decide) (by decide)

/-- C18. Single-bit errors in the checksummed part are detected: in a packet written
by `writePacket` for a 16-bit type and a payload of at most 12 bytes, flip one bit
of a type byte (index 1 or 2 of the packet), of a payload byte or of a checksum
byte (index 7 and above).  A freshly constructed framer returns `false` on every
byte of the corrupted packet and is reset after its last byte. -/
theorem single_bit_error_detected (t : Nat) (p mem : List Nat) (i k : Nat) (ht : t < 65536)
    (hp : isBytes p) (hn : p.length ≤ 12)
    (hi : i = 1 ∨ i = 2 ∨ (7 ≤ i ∧ i < 9 + p.length)) (hk : k < 8) (hm : mem.length = 20) :
    ∃ s1 : State,
      feed (new mem) (flipBit (writePacket t p p.length).1 i k)
        = some (s1, List.replicate (9 + p.length) false) ∧
      s1.seen_preamble = false ∧ s1.buffer_position = 0 := by
  have hW := writePacket_data t p ht (by omega) hp
  have hc := fletcher16_lt 0 0 (headerBytes t p.length ++ p) true
  have hD := data_isBytes t p ht (by omega) hp
  have hlen := data_length t p
  obtain ⟨idx, rfl⟩ : ∃ idx, i = idx + 1 := ⟨i - 1, by omega⟩
  rw [hW]
  simp only [flipBit, List.set_cons_succ, List.getD_cons_succ]
  have hnoop : (headerBytes t p.length ++ p).set 0 (t / 256) = headerBytes t p.length ++ p := by
    simp [headerBytes]
  by_cases hdata : idx < 6 + p.length
  · -- a type byte or a payload byte
    have hget : ((headerBytes t p.length ++ p) ++
        [(fletcher16 0 0 (headerBytes t p.length ++ p) true).1,
         (fletcher16 0 0 (headerBytes t p.length ++ p) true).2]).getD idx 0
        = (headerBytes t p.length ++ p).getD idx 0 :=
      List.getD_append _ _ _ _ (by omega)
    have hx := data_getD_byte t p idx ht (by omega) hp
    have hw := flip_lt _ k hx hk
    have hmod := flip_mod255 k hk _ hx
    have hsum := sum_set (headerBytes t p.length ++ p) idx
      ((headerBytes t p.length ++ p).getD idx 0 ^^^ 2 ^ k) (by omega)
    rw [hget, List.set_append_left _ _ (by omega)]
    refine feed_altered_rejected t p mem idx _ _ _ (by omega) ht hp hn hw hc.1 hc.2 hm ?_
    intro hEq
    refine fletcher16_fst_ne 0 0 0 0 _ _ (isBytes_set _ _ _ hD hw) hD ?_ (congrArg Prod.fst hEq)
    omega
  · rcases Nat.lt_or_ge idx (7 + p.length) with h7 | h7
    · -- the first checksum byte
      have hidx : idx = (headerBytes t p.length ++ p).length := by omega
      subst hidx
      have hget : ((headerBytes t p.length ++ p) ++
          [(fletcher16 0 0 (headerBytes t p.length ++ p) true).1,
           (fletcher16 0 0 (headerBytes t p.length ++ p) true).2]).getD
            (headerBytes t p.length ++ p).length 0
          = (fletcher16 0 0 (headerBytes t p.length ++ p) true).1 := by
        rw [List.getD_append_right _ _ _ _ (Nat.le_refl _)]; simp
      rw [hget, List.set_append_right _ _ (Nat.le_refl _), Nat.sub_self, List.set_cons_zero,
        ← hnoop]
      refine feed_altered_rejected t p mem 0 _ _ _ (Or.inl rfl) ht hp hn (by omega)
        (flip_lt _ k hc.1 hk) hc.2 hm ?_
      rw [hnoop]
      intro hEq
      exact flip_ne _ k (congrArg Prod.fst hEq).symm
    · -- the second checksum byte
      have hidx : idx = (headerBytes t p.length ++ p).length + 1 := by omega
      subst hidx
      have hget : ((headerBytes t p.length ++ p) ++
          [(fletcher16 0 0 (headerBytes t p.length ++ p) true).1,
           (fletcher16 0 0 (headerBytes t p.length ++ p) true).2]).getD
            ((headerBytes t p.length ++ p).length + 1) 0
          = (fletcher16 0 0 (headerBytes t p.length ++ p) true).2 := by
        rw [List.getD_append_right _ _ _ _ (by omega)]; simp
      rw [hget, List.set_append_right _ _ (by omega), Nat.add_sub_cancel_left,
        List.set_cons_succ, List.set_cons_zero, ← hnoop]
      refine feed_altered_rejected t p mem 0 _ _ _ (Or.inl rfl) ht hp hn (by omega) hc.1
        (flip_lt _ k hc.2 hk) hm ?_
      rw [hnoop]
      intro hEq
      exact flip_ne _ k (congrArg Prod.snd hEq).symm

theorem single_bit_error_detected_witness :
    ∃ s1 : State,
      feed (new (List.replicate 20 0)) (flipBit (writePacket 0x1234 [1, 2, 3] 3).1 2 5)
        = some (s1, List.replicate (9 + 3) false) ∧
      s1.seen_preamble = false ∧ s1.buffer_position = 0 :=
  single_bit_error_detected 0x1234 [1, 2, 3] (List.replicate 20 0) 2 5 (by decide) (by decide)
    (by decide) (by decide) (by decide) (by decide)

/-- C19. Closed form of the checksum: for bytes `b_0 .. b_{n-1}`, reset-mode
`fletcher16` returns `(A, B)` with `A` congruent to the sum of the `b_i` and `B`
congruent to the sum of the `(n - i) * b_i` modulo 255, each as the representative
in `[1, 255]`; and in the loop no 16-bit addition overflows: before each reduction
the two sums are below 65536. -/
theorem fletcher16_closed_form (checkA checkB : Nat) (data : List Nat) (hd : isBytes data) :
    fletcher16 checkA checkB data true = fletcherClosed data ∧
    (fletcherClosed data).1 % 255 = data.sum % 255 ∧
    (fletcherClosed data).2 % 255 = weightedSum data % 255 ∧
    (1 ≤ (fletcherClosed data).1 ∧ (fletcherClosed data).1 ≤ 255) ∧
    (1 ≤ (fletcherClosed data).2 ∧ (fletcherClosed data).2 ≤ 255) ∧
    ∀ pre d post, data = pre ++ d :: post →
      (fletcherLoop 0 0 pre).1 + d < 65536 ∧
      (fletcherLoop 0 0 pre).2 + ((fletcherLoop 0 0 pre).1 + d) % 65536 % 255 < 65536 := by
  have rb : ∀ r : Nat, residueByte r % 255 = r % 255 ∧ 1 ≤ residueByte r ∧ residueByte r ≤ 255 := by
    intro r
    unfold residueByte
    by_cases h : r % 255 = 0
    · simp [h]
    · simp only [h, if_false]; omega
  refine ⟨fletcher16_closed checkA checkB data hd, (rb _).1, (rb _).1, (rb _).2, (rb _).2, ?_⟩
  intro pre d post hsplit
  have hlt := fletcherLoop_lt 0 0 pre (by decide) (by decide)
  have hdlt : d < 256 := hd d (by rw [hsplit]; simp)
  omega

theorem fletcher16_closed_form_witness :
    fletcher16 0 0 [0x12, 0x34, 0, 3, 0xFF, 0xFC, 1, 2, 3] true
      = fletcherClosed [0x12, 0x34, 0, 3, 0xFF, 0xFC, 1, 2, 3] ∧
    fletcherClosed [0x12, 0x34, 0, 3, 0xFF, 0xFC, 1, 2, 3] = (0x4C, 0x54) :=
  ⟨(fletcher16_closed_form 0 0 [0x12, 0x34, 0, 3, 0xFF, 0xFC, 1, 2, 3] (by decide)).1,
   by decide⟩

/-- C20. The checksum cannot tell `0x00` from `0xFF`: replacing a byte `0x00` of the
data by `0xFF`, or a `0xFF` by `0x00`, leaves both bytes produced by `fletcher16`
unchanged, in reset mode and in continue mode from any two seed bytes.  So a packet
from `writePacket` (payload of at most 12 bytes) in which a type byte (index 1 or
2) or a payload byte is altered in this way is still accepted: a freshly
constructed framer returns `true` at its last byte. -/
theorem checksum_blind_to_00_FF (checkA checkB : Nat) (reset : Bool) (x : List Nat)
    (i v w : Nat) (t : Nat) (p mem : List Nat) (j : Nat)
    (ha : checkA ≤ 255) (hb : checkB ≤ 255) (hi : i < x.length) (hx : x.getD i 0 = v)
    (hvw : (v = 0 ∧ w = 0xFF) ∨ (v = 0xFF ∧ w = 0))
    (ht : t < 65536) (hp : isBytes p) (hn : p.length ≤ 12) (hm : mem.length = 20)
    (hj : j = 1 ∨ j = 2 ∨ (7 ≤ j ∧ j < 7 + p.length))
    (hW : (writePacket t p p.length).1.getD j 0 = v) :
    fletcher16 checkA checkB (x.set i w) reset = fletcher16 checkA checkB x reset ∧
    ∃ s : State,
      feed (new mem) ((writePacket t p p.length).1.set j w)
        = some (s, List.replicate (8 + p.length) false ++ [true]) := by
  refine ⟨fletcher16_blind checkA checkB reset x i v w ha hb hi hx hvw, ?_⟩
  have hWd := writePacket_data t p ht (by omega) hp
  have hc := fletcher16_lt 0 0 (headerBytes t p.length ++ p) true
  have hlen := data_length t p
  have hw : w < 256 := by rcases hvw with ⟨_, rfl⟩ | ⟨_, rfl⟩ <;> decide
  obtain ⟨idx, rfl⟩ : ∃ idx, j = idx + 1 := ⟨j - 1, by omega⟩
  rw [hWd] at hW ⊢
  simp only [List.set_cons_succ, List.getD_cons_succ] at hW ⊢
  rw [List.getD_append _ _ _ _ (by omega)] at hW
  rw [List.set_append_left _ _ (by omega)]
  obtain ⟨st, hfeed, _⟩ := feed_altered (new mem) t p idx w _ _ rfl rfl hm (Or.inl rfl)
    (by omega) ht hp hn hw hc.1 hc.2
  have hsame := fletcher16_blind 0 0 true (headerBytes t p.length ++ p) idx v w (by decide)
    (by decide) (by omega) hW hvw
  rw [hsame] at hfeed
  exact ⟨st, by rw [hfeed]; simp⟩

theorem checksum_blind_to_00_FF_witness :
    fletcher16 7 9 ([1, 0, 2].set 1 0xFF) false = fletcher16 7 9 [1, 0, 2] false ∧
    ∃ s : State,
      feed (new (List.replicate 20 0)) ((writePacket 0x1200 [5, 0] [5, 0].length).1.set 8 0xFF)
        = some (s, List.replicate (8 + [5, 0].length) false ++ [true]) :=
  checksum_blind_to_00_FF 7 9 false [1, 0, 2] 1 0 0xFF 0x1200 [5, 0] (List.replicate 20 0) 8
    (by decide) (by decide) (by decide) (by decide) (by decide) (by decide) (by decide)
    (by decide) (by decide) (by decide) (by decide)

/-- C12. Drain semantics: `readAllRemainingAndVerify` is defined for every framer
state and every finite list of available bytes, and it is the single-byte consume
repeated up to the first `true`.  It returns `true` exactly when the bytes up to
some byte give `false` throughout and that byte gives `true`; the bytes behind it
stay on the stream and the framer is the one after these consumes.  It returns
`false` exactly when all bytes give `false`; the stream is then empty and the
framer is the one after all consumes.  It has no result only when a single-byte
consume, before any `true`, stores outside the buffer. -/
theorem drain_semantics (s : State) (bs : List Nat) :
    (∀ s' rest, readAllRemainingAndVerify s bs = some (s', rest, true) ↔
      ∃ pre b, bs = pre ++ b :: rest ∧
        feed s (pre ++ [b]) = some (s', List.replicate pre.length false ++ [true])) ∧
    (∀ s' rest, readAllRemainingAndVerify s bs = some (s', rest, false) ↔
      rest = [] ∧ feed s bs = some (s', List.replicate bs.length false)) ∧
    (readAllRemainingAndVerify s bs = none ↔
      ∃ pre b post s0, bs = pre ++ b :: post ∧
        feed s pre = some (s0, List.replicate pre.length false) ∧
        readOneByteAndVerify s0 b = none) :=
  ⟨fun s' rest => drain_true_iff s s' bs rest, fun s' rest => drain_false_iff s s' bs rest,
    drain_none_iff s bs⟩

/-- C17. A reset framer is indistinguishable from a fresh one: if a byte sequence
`s` fed to a freshly constructed framer leaves it with `seen_preamble = false` and
`buffer_position = 0`, then for every further byte sequence `u` the values returned
over `u` from that state (and the point where a store would leave the buffer, if
any) are those returned over `u` by a freshly constructed framer, whatever its
buffer holds.  The stale `packet_length` is 0 or at least 7, so it is never equal
to `buffer_position` while the next header is read. -/
theorem reset_like_fresh (mem mem' s u : List Nat) (st : State) (rs : List Bool)
    (hm : mem.length = 20) (hm' : mem'.length = 20)
    (hfeed : feed (new mem) s = some (st, rs))
    (hseen : st.seen_preamble = false) (hpos : st.buffer_position = 0) :
    (feed st u).map Prod.snd = (feed (new mem') u).map Prod.snd ∧
    (st.packet_length = 0 ∨ 7 ≤ st.packet_length) := by
  have hI := sameView_reachable s (new mem) st rs (sameView_new mem hm) hfeed
  obtain ⟨_, _, hl, _, _, _, _, hst⟩ := hI
  have hstale := hst (by simp [hseen])
  refine ⟨sameView_feed u st (new mem') ?_, hstale.1⟩
  refine ⟨hseen, hpos, hl, hm', ?_, fun _ => hpos, ?_, fun _ => ⟨hstale.1, Or.inl rfl⟩⟩
  · rw [hpos]; rfl
  · intro h; rw [hseen] at h; simp at h

theorem reset_like_fresh_witness :
    (feed { packet_type := 0, packet_length := 9, buffer_position := 0,
            seen_preamble := false,
            buf := [0, 0, 0, 1, 0xFF, 0xFE, 7, 8, 9, 0, 0, 0, 0, 0, 0, 0, 0, 0, 0, 0] }
        (writePacket 0x1234 [1, 2, 3] 3).1).map Prod.snd
      = (feed (new [1, 2, 3, 4, 5, 6, 7, 8, 9, 10, 11, 12, 13, 14, 15, 16, 17, 18, 19, 20])
          (writePacket 0x1234 [1, 2, 3] 3).1).map Prod.snd ∧
    ((9 : Nat) = 0 ∨ 7 ≤ 9) :=
  reset_like_fresh (List.replicate 20 0)
    [1, 2, 3, 4, 5, 6, 7, 8, 9, 10, 11, 12, 13, 14, 15, 16, 17, 18, 19, 20]
    [0xAA, 0, 0, 0, 1, 0xFF, 0xFE, 7, 8, 9] (writePacket 0x1234 [1, 2, 3] 3).1
    { packet_type := 0, packet_length := 9, buffer_position := 0, seen_preamble := false,
      buf := [0, 0, 0, 1, 0xFF, 0xFE, 7, 8, 9, 0, 0, 0, 0, 0, 0, 0, 0, 0, 0, 0] }
    (List.replicate 10 false) (by decide) (by decide) (by decide) rfl rfl

/-- C11. The completion signal is sound: after any bytes fed to a freshly constructed
framer, whenever `readOneByteAndVerify` returns `true` the framer holds a verified
packet: `buffer_position = packet_length = 6 + L + 2 ≤ 20`, where `L` is the
big-endian length field in `buf[2 .. 3]` and equals the 16-bit complement of the
field in `buf[4 .. 5]`; `packet_type` is the big-endian value of `buf[0 .. 1]`; and
the bytes `buf[packet_length - 2]`, `buf[packet_length - 1]` are the reset-mode
`fletcher16` of `buf[0 .. packet_length - 2)`. -/
theorem completion_signal_sound (mem bs : List Nat) (s0 s : State) (rs : List Bool) (b : Nat)
    (hm : mem.length = 20) (hmem : isBytes mem)
    (hfeed : feed (new mem) bs = some (s0, rs))
    (hstep : readOneByteAndVerify s0 b = some (s, true)) :
    s.buffer_position = s.packet_length ∧
    s.packet_length = 6 + (256 * s.buf.getD 2 0 + s.buf.getD 3 0) + 2 ∧
    s.packet_length ≤ 20 ∧
    256 * s.buf.getD 2 0 + s.buf.getD 3 0 = 65535 - (256 * s.buf.getD 4 0 + s.buf.getD 5 0) ∧
    s.packet_type = 256 * s.buf.getD 0 0 + s.buf.getD 1 0 ∧
    fletcher16 0 0 (s.buf.take (s.packet_length - 2)) true
      = (s.buf.getD (s.packet_length - 2) 0, s.buf.getD (s.packet_length - 1) 0) :=
  (headerHeld_step s0 s b true
    (headerHeld_feed bs (new mem) s0 rs (headerHeld_new mem hm hmem) hfeed) hstep).2 rfl

theorem completion_signal_sound_witness :
    (11 : Nat) = 11 ∧ (11 : Nat) = 6 + (256 * 0 + 3) + 2 ∧ (11 : Nat) ≤ 20 ∧
    256 * 0 + 3 = 65535 - (256 * 0xFF + 0xFC) ∧
    0x1234 = 256 * 0x12 + 0x34 ∧
    fletcher16 0 0 [0x12, 0x34, 0, 3, 0xFF, 0xFC, 1, 2, 3] true = (0x4C, 0x54) :=
  completion_signal_sound (List.replicate 20 0)
    [0xAA, 0x12, 0x34, 0, 3, 0xFF, 0xFC, 1, 2, 3, 0x4C]
    { packet_type := 0x1234, packet_length := 11, buffer_position := 10, seen_preamble := true,
      buf := [0x12, 0x34, 0, 3, 0xFF, 0xFC, 1, 2, 3, 0x4C, 0, 0, 0, 0, 0, 0, 0, 0, 0, 0] }
    { packet_type := 0x1234, packet_length := 11, buffer_position := 11, seen_preamble := true,
      buf := [0x12, 0x34, 0, 3, 0xFF, 0xFC, 1, 2, 3, 0x4C, 0x54, 0, 0, 0, 0, 0, 0, 0, 0, 0] }
    (List.replicate 11 false) 0x54 (by decide) (by decide) (by decide) (by decide)

end SerialProto
